import Mathlib

/-!
Shallow embedding of the session-assembly and scoring pipeline of the
CompTIA A+ practice-exam simulator, together with proofs of the spec
claims about it.

Conventions used throughout:
* JS numbers are modelled by `ℕ`, `ℤ` or `ℚ` with the exact arithmetic the
  program performs; 32-bit operations (`Math.imul`, `>>> 0`, `^`, `|`) are
  modelled on unsigned residues mod 2^32, which agrees with the JS values
  at every use site of the code.
* JS `undefined`-producing lookups are modelled with `Option`.
* Unseeded randomness (`Math.random()`) is modelled by an oracle stream of
  rationals in `[0, 1)` passed as an argument.
-/

namespace ASim

/-! ## Weighted allocator (sessionPlanner.ts) -/

/-- `DomainBlueprint` from sessionPlanner.ts: static per-core configuration. -/
structure DomainBlueprint where
  domainNumber : String
  domainLabel : String
  weight : ℕ
  deriving Repr, DecidableEq

/-- `CORE1_BLUEPRINT` from sessionPlanner.ts. -/
def CORE1_BLUEPRINT : List DomainBlueprint :=
  [ { domainNumber := "1.0", domainLabel := "Mobile Devices", weight := 13 },
    { domainNumber := "2.0", domainLabel := "Networking", weight := 23 },
    { domainNumber := "3.0", domainLabel := "Hardware", weight := 25 },
    { domainNumber := "4.0", domainLabel := "Virtualization and Cloud Computing", weight := 11 },
    { domainNumber := "5.0", domainLabel := "Hardware and Network Troubleshooting", weight := 28 } ]

/-- `CORE2_BLUEPRINT` from sessionPlanner.ts. -/
def CORE2_BLUEPRINT : List DomainBlueprint :=
  [ { domainNumber := "1.0", domainLabel := "Operating Systems", weight := 28 },
    { domainNumber := "2.0", domainLabel := "Security", weight := 28 },
    { domainNumber := "3.0", domainLabel := "Software Troubleshooting", weight := 23 },
    { domainNumber := "4.0", domainLabel := "Operational Procedures", weight := 21 } ]

/-- One element of the `raw` array built inside `allocateByWeight`:
`{ key, exact, floor }`.  The field `idx` records the element's position in
the blueprint; it is bookkeeping for reasoning about the stability of the
JS sort and does not influence any computed value. -/
structure RawEntry where
  key : String
  exact : ℚ
  flr : ℤ
  idx : ℕ
  deriving Repr, DecidableEq

/-- Fractional remainder `rem = exact - floor` attached by the `byRemainder`
map step of `allocateByWeight`. -/
def RawEntry.rem (r : RawEntry) : ℚ := r.exact - (r.flr : ℚ)

/-- Result of `allocateByWeight`.  The source function has no error channel:
`ok` is its normal return (a counts record, modelled as a total function
that is `0` away from the blueprint keys, matching the `?? 0` read in
`buildPlan`); `nan` is the outcome in which a zero weight sum makes every
count `NaN` (division by zero); `crash` is the TypeError thrown when the
distribution loop indexes into an empty `byRemainder` array. -/
inductive AllocResult where
  | ok (counts : String → ℤ)
  | nan
  | crash

/-- Whether an `AllocResult` is a normally returned counts record. -/
def AllocResult.isCounts : AllocResult → Bool
  | .ok _ => true
  | _ => false

/-- The counts record of a normal return (`0` otherwise); `buildPlan` reads
the allocator result exactly this way, via `allocation[key] ?? 0`. -/
def AllocResult.counts : AllocResult → (String → ℤ)
  | .ok c => c
  | _ => fun _ => 0

/-- The comparator `(a, b) => b.rem - a.rem` of `allocateByWeight` as the
total preorder it induces: `a` may stay before `b` iff `b.rem ≤ a.rem`
(descending by remainder). -/
def remDescRel (a b : RawEntry) : Prop := b.rem ≤ a.rem

instance : DecidableRel remDescRel := fun a b => inferInstanceAs (Decidable (b.rem ≤ a.rem))

instance : IsTotal RawEntry remDescRel := ⟨fun a b => le_total b.rem a.rem⟩

instance : IsTrans RawEntry remDescRel := ⟨fun _ _ _ hab hbc => le_trans hbc hab⟩

instance : Inhabited RawEntry := ⟨{ key := "", exact := 0, flr := 0, idx := 0 }⟩

/-- `const sum = blueprint.reduce((s, d) => s + d.weight, 0)` of
`allocateByWeight`. -/
def allocWsum (blueprint : List DomainBlueprint) : ℕ := (blueprint.map (·.weight)).sum

/-- `exact = (d.weight / sum) * total` of one `raw` entry (exact rational
arithmetic; the source uses binary64). -/
def allocExact (total : ℕ) (blueprint : List DomainBlueprint) (d : DomainBlueprint) : ℚ :=
  ((d.weight : ℚ) / (allocWsum blueprint : ℚ)) * (total : ℚ)

/-- `floor = Math.floor((d.weight / sum) * total)` of one `raw` entry. -/
def allocFloor (total : ℕ) (blueprint : List DomainBlueprint) (d : DomainBlueprint) : ℤ :=
  ⌊allocExact total blueprint d⌋

/-- The fractional remainder `exact - floor` of one entry. -/
def allocFrac (total : ℕ) (blueprint : List DomainBlueprint) (d : DomainBlueprint) : ℚ :=
  allocExact total blueprint d - (allocFloor total blueprint d : ℚ)

/-- The `raw` array of `allocateByWeight` (`idx` is the blueprint
position, bookkeeping for the stability argument). -/
def allocRaw (total : ℕ) (blueprint : List DomainBlueprint) : List RawEntry :=
  blueprint.enum.map (fun p =>
    { key := p.2.domainNumber
      exact := allocExact total blueprint p.2
      flr := allocFloor total blueprint p.2
      idx := p.1 })

/-- `used = raw.reduce((s, r) => s + r.floor, 0)`. -/
def allocUsed (total : ℕ) (blueprint : List DomainBlueprint) : ℤ :=
  ((allocRaw total blueprint).map (·.flr)).sum

/-- `remaining = total - used`. -/
def allocRemaining (total : ℕ) (blueprint : List DomainBlueprint) : ℤ :=
  (total : ℤ) - allocUsed total blueprint

/-- `byRemainder`: the `raw` array sorted by descending fractional
remainder.  JS `Array.prototype.sort` is stable, and a stable sort with
respect to the total preorder of the comparator is unique;
`insertionSort` is that stable sort (`List.sublist_insertionSort`). -/
def allocByRemainder (total : ℕ) (blueprint : List DomainBlueprint) : List RawEntry :=
  (allocRaw total blueprint).insertionSort remDescRel

/-- The `counts` record after the `for (const r of raw) counts[r.key] =
r.floor` loop. -/
def allocBase (total : ℕ) (blueprint : List DomainBlueprint) : String → ℤ :=
  (allocRaw total blueprint).foldl (fun f r => Function.update f r.key r.flr) (fun _ => 0)

/-- The `counts` record after the distribution loop
`for (let i = 0; i < remaining; i++) counts[byRemainder[i %
byRemainder.length].key] += 1`. -/
def allocCountsFun (total : ℕ) (blueprint : List DomainBlueprint) : String → ℤ :=
  (List.range (allocRemaining total blueprint).toNat).foldl
    (fun f i =>
      Function.update f
        ((allocByRemainder total blueprint).getD
          (i % (allocByRemainder total blueprint).length) default).key
        (f ((allocByRemainder total blueprint).getD
          (i % (allocByRemainder total blueprint).length) default).key + 1))
    (allocBase total blueprint)

/-- `allocateByWeight` from sessionPlanner.ts (largest-remainder
apportionment), assembled from the pieces above exactly as the source
computes them. -/
def allocateByWeight (total : ℕ) (blueprint : List DomainBlueprint) : AllocResult :=
  if blueprint ≠ [] ∧ allocWsum blueprint = 0 then AllocResult.nan
  else if (allocByRemainder total blueprint).length = 0 ∧ 0 < allocRemaining total blueprint
    then AllocResult.crash
  else AllocResult.ok (allocCountsFun total blueprint)

/-! ## Objectives catalogue (objectives.ts) and plan builder (sessionPlanner.ts) -/

/-- `CoreId` from objectives.ts. -/
inductive CoreId where
  | core1201
  | core1202
  deriving Repr, DecidableEq

/-- The string value of a `CoreId` (`"220-1201"` / `"220-1202"`). -/
def CoreId.str : CoreId → String
  | .core1201 => "220-1201"
  | .core1202 => "220-1202"

/-- `ObjectiveMeta` from objectives.ts. -/
structure ObjectiveMeta where
  domain : String
  title : String
  bullets : List String
  deriving Repr, DecidableEq

/-- The generated objective catalogue (`OBJECTIVES` from
objectives.generated.ts, a data file not present in the repository
sources).  Modelled as a parameter: a per-core association list whose key
order models the JS object key (insertion) order. -/
def Catalog : Type := CoreId → List (String × ObjectiveMeta)

/-- `getObjectiveMeta` from objectives.ts. -/
def getObjectiveMeta (cat : Catalog) (core : CoreId) (objectiveId : String) :
    Option ObjectiveMeta :=
  ((cat core).find? (fun p => p.1 = objectiveId)).map (·.2)

/-- `listObjectiveIds` from objectives.ts (`Object.keys`). -/
def listObjectiveIds (cat : Catalog) (core : CoreId) : List String :=
  (cat core).map (·.1)

/-- `s.split(".")[0]` for a JS string: the text before the first `"."`
(the whole string when there is none), modelled on the character list so
that it evaluates in the kernel. -/
def splitHead (s : String) : String := String.mk (s.data.takeWhile (fun c => c ≠ '.'))

/-- `objectiveDomainNumber` from objectives.ts. -/
def objectiveDomainNumber (objectiveId : String) : String :=
  splitHead objectiveId ++ ".0"

/-- `listObjectivesByDomain` from objectives.ts. -/
def listObjectivesByDomain (cat : Catalog) (core : CoreId) (domainNumber : String) :
    List String :=
  (listObjectiveIds cat core).filter (fun id => objectiveDomainNumber id = domainNumber)

/-- `QuestionType` from examTypes.ts. -/
inductive QuestionType where
  | single
  | multi
  | pbqOrder
  | pbqMatch
  deriving Repr, DecidableEq

/-- `Difficulty` from examTypes.ts. -/
inductive Difficulty where
  | easy
  | medium
  | hard
  deriving Repr, DecidableEq

/-- The string value of a `Difficulty`. -/
def Difficulty.str : Difficulty → String
  | .easy => "easy"
  | .medium => "medium"
  | .hard => "hard"

/-- `SessionConfig` from examTypes.ts. -/
structure SessionConfig where
  pbqCount : ℕ
  showObjectiveHints : Bool
  difficulty : Difficulty
  deriving Repr, DecidableEq

/-- `EXAM_QUESTION_COUNT` from sessionPlanner.ts. -/
def EXAM_QUESTION_COUNT : ℕ := 90

/-- `EXAM_DURATION_SECONDS` from sessionPlanner.ts. -/
def EXAM_DURATION_SECONDS : ℕ := 90 * 60

/-- `QuestionPlanItem` from sessionPlanner.ts. -/
structure QuestionPlanItem where
  domainNumber : String
  domainLabel : String
  objectiveId : String
  objectiveTitle : String
  objectiveBullets : List String
  type : QuestionType
  deriving Repr, DecidableEq

instance : Inhabited QuestionPlanItem :=
  ⟨{ domainNumber := "", domainLabel := "", objectiveId := "", objectiveTitle := "",
     objectiveBullets := [], type := QuestionType.single }⟩

/-- `Math.floor(q * len)` for a `Math.random()` draw `q ∈ [0, 1)`: the index
JS computes in `pickOne` (sessionPlanner.ts) and in the two injection loops
of `buildPlan`. -/
def randIdx (q : ℚ) (len : ℕ) : ℕ := (⌊q * (len : ℚ)⌋).toNat

/-- `pickOne` from sessionPlanner.ts, with the `Math.random()` draw made
explicit (`""` models the `undefined` of an out-of-range index; with a draw
in `[0, 1)` and a non-empty list the index is always in range). -/
def pickOneAt (q : ℚ) (arr : List String) : String :=
  arr.getD (randIdx q arr.length) ""

/-- One iteration of the inner `for (let i = 0; i < count; i++)` loop of
`buildPlan` for domain `d`: append one `single`-typed plan item; the
second accumulator component threads the `Math.random()` stream position
(`pickOne` draws one value only when the domain has objectives;
`objectiveIds` is a pure recomputation of the value the source hoists out
of the loop). -/
def domainStep (cat : Catalog) (core : CoreId) (d : DomainBlueprint) (r : ℕ → ℚ)
    (acc : List QuestionPlanItem × ℕ) (_ : ℕ) : List QuestionPlanItem × ℕ :=
  let objectiveIds := listObjectivesByDomain cat core d.domainNumber
  let objId :=
    if objectiveIds ≠ [] then pickOneAt (r acc.2) objectiveIds
    else splitHead d.domainNumber ++ ".1"
  let meta := getObjectiveMeta cat core objId
  (acc.1 ++
    [{ domainNumber := d.domainNumber
       domainLabel := d.domainLabel
       objectiveId := objId
       objectiveTitle := (meta.map (·.title)).getD ("Objective " ++ objId)
       objectiveBullets := (meta.map (·.bullets)).getD []
       type := QuestionType.single }],
   if objectiveIds ≠ [] then acc.2 + 1 else acc.2)

/-- The per-domain expansion loops of `buildPlan`: one `QuestionPlanItem`
per allocated count, emitted with `type: "single"`. -/
def buildPlanBase (cat : Catalog) (core : CoreId) (blueprint : List DomainBlueprint)
    (allocation : String → ℤ) (r : ℕ → ℚ) : List QuestionPlanItem × ℕ :=
  blueprint.foldl
    (fun acc d =>
      (List.range (allocation d.domainNumber).toNat).foldl (domainStep cat core d r) acc)
    ([], 0)

/-- One iteration of the PBQ injection loop of `buildPlan`: a random index
draw, then a 50/50 `Math.random() < 0.5` draw for order/match.  `plan[idx]`
is read with `get?`; for the non-empty plans of both cores the index is
always in range. -/
def injectPbqStep (r : ℕ → ℚ) (acc : List QuestionPlanItem × ℕ) (_ : ℕ) :
    List QuestionPlanItem × ℕ :=
  let plan := acc.1
  let k := acc.2
  let idx := randIdx (r k) plan.length
  let ty := if r (k + 1) < (1 : ℚ) / 2 then QuestionType.pbqOrder else QuestionType.pbqMatch
  (match plan.get? idx with
   | some it => plan.set idx { it with type := ty }
   | none => plan, k + 2)

/-- One iteration of the multi-select sprinkle loop of `buildPlan`: a random
index draw; the slot is promoted to `multi` only if it is still `single`. -/
def injectMultiStep (r : ℕ → ℚ) (acc : List QuestionPlanItem × ℕ) (_ : ℕ) :
    List QuestionPlanItem × ℕ :=
  let plan := acc.1
  let k := acc.2
  let idx := randIdx (r k) plan.length
  (match plan.get? idx with
   | some it =>
       if it.type = QuestionType.single then plan.set idx { it with type := QuestionType.multi }
       else plan
   | none => plan, k + 1)

/-- `buildPlan` from sessionPlanner.ts.  `r` is the `Math.random()` oracle
stream; `min(config.pbqCount, 12)` needs no `Math.max(0, _)` clamp because
`pbqCount` is a `ℕ` here.  `Math.floor(plan.length * 0.12)` is computed in
exact arithmetic (for the 90-entry plans of both cores the binary64 value
agrees). -/
def buildPlan (cat : Catalog) (core : CoreId) (config : SessionConfig) (r : ℕ → ℚ) :
    List QuestionPlanItem :=
  let blueprint := if core = CoreId.core1201 then CORE1_BLUEPRINT else CORE2_BLUEPRINT
  let allocation := (allocateByWeight EXAM_QUESTION_COUNT blueprint).counts
  let base := buildPlanBase cat core blueprint allocation r
  let pbqCount := min config.pbqCount 12
  let afterPbq := (List.range pbqCount).foldl (injectPbqStep r) base
  let multiCount := min 10 ((afterPbq.1.length * 12) / 100)
  let afterMulti := (List.range multiCount).foldl (injectMultiStep r) afterPbq
  afterMulti.1.take EXAM_QUESTION_COUNT

/-- The objective-reference guarantee of a plan item: its objective id is
drawn from its domain's objective list, or is the placeholder
`"<domainMajor>.1"` exactly when that list is empty. -/
def planObjOk (cat : Catalog) (core : CoreId) (p : QuestionPlanItem) : Prop :=
  (listObjectivesByDomain cat core p.domainNumber ≠ [] →
    p.objectiveId ∈ listObjectivesByDomain cat core p.domainNumber) ∧
  (listObjectivesByDomain cat core p.domainNumber = [] →
    p.objectiveId = splitHead p.domainNumber ++ ".1")

/-! ## Exam data types (examTypes.ts) -/

/-- An option / step / match entry `{ id, text }`. -/
structure OptionItem where
  id : String
  text : String
  deriving Repr, DecidableEq

instance : Inhabited OptionItem := ⟨{ id := "", text := "" }⟩

/-- The `pbq` union field of `Question` from examTypes.ts. -/
inductive PbqData where
  | order (items : List OptionItem)
  | pairing (leftLabel rightLabel : String) (left right : List OptionItem)
  deriving Repr, DecidableEq

/-- `Question` from examTypes.ts.  The optional TS fields `options` and
`focus` are modelled as a plain list (absent = `[]`) and an `Option`. -/
structure Question where
  id : String
  core : CoreId
  domain : String
  objective : String
  objectiveTitle : String
  objectiveBullets : List String
  focus : Option String := none
  type : QuestionType
  prompt : String
  options : List OptionItem := []
  correct : List String
  explanation : String
  pbq : Option PbqData := none
  deriving Repr, DecidableEq

instance : Inhabited Question :=
  ⟨{ id := "", core := CoreId.core1201, domain := "", objective := "", objectiveTitle := "",
     objectiveBullets := [], type := QuestionType.single, prompt := "", correct := [],
     explanation := "" }⟩

/-- `ExamSession` from examTypes.ts (the fields the scoring engine reads). -/
structure ExamSession where
  sessionId : String
  core : CoreId
  durationSeconds : ℕ
  questions : List Question

/-- `ScoredQuestion` from examTypes.ts. -/
structure ScoredQuestion where
  questionId : String
  isCorrect : Bool
  deriving Repr, DecidableEq

instance : Inhabited ScoredQuestion := ⟨{ questionId := "", isCorrect := false }⟩

/-- `ExamResult` from examTypes.ts.  `percent` is `Option ℚ`: `none` models
the JS `NaN` produced by `0 / 0` when the session has no questions; the
rounding of a non-zero total is modelled in exact rational arithmetic. -/
structure ExamResult where
  percent : Option ℚ
  correctCount : ℕ
  total : ℕ
  byDomain : List (String × ℕ × ℕ)
  scored : List ScoredQuestion

/-! ## Offline synthesizer (the offline question-builder module) -/

/-- `hashStringToSeed` from the offline synthesizer: FNV-1a over the UTF-16
code units (`Char.toNat` agrees for the BMP strings hashed here);
`Math.imul` composed with the `^` coercions acts as multiplication on
unsigned residues mod 2^32. -/
def hashStringToSeed (s : String) : ℕ :=
  s.data.foldl (fun h c => ((h ^^^ c.toNat) * 16777619) % 4294967296) 2166136261

/-- `Math.imul` on unsigned 32-bit residues. -/
def imul32 (a b : ℕ) : ℕ := (a * b) % 4294967296

/-- One step of the `mulberry32` generator of the offline synthesizer: from
the closure state `t` (a JS float that only ever grows by `0x6D2B79F5`;
exact below 2^53, far beyond any use here), the 32-bit output and the new
state.  Every JS bit operation coerces to 32 bits, so the computation is
carried out on residues mod 2^32. -/
def mulberryNext (t : ℕ) : ℕ × ℕ :=
  let t' := t + 0x6D2B79F5
  let u := t' % 4294967296
  let a := imul32 (u ^^^ (u >>> 15)) (u ||| 1)
  let b := a ^^^ ((a + imul32 (a ^^^ (a >>> 7)) (a ||| 61)) % 4294967296)
  (b ^^^ (b >>> 14), t')

/-- `Math.floor(rng.next() * n)` for the mulberry32 output `x < 2^32`:
`rng.next()` is the exact binary64 value `x / 2^32`, and for the small `n`
used here `x * n < 2^53`, so the float product is exact and the floor is
`x * n / 2^32` in integer division. -/
def mulberryIdx (t : ℕ) (n : ℕ) : ℕ × ℕ :=
  let (x, t') := mulberryNext t
  ((x * n) / 4294967296, t')

/-- `pickOne` from the offline synthesizer (`arr[Math.floor(rng.next() *
arr.length)]`, with `default` for the `undefined` of an empty array; every
call site passes a non-empty array). -/
def pickOne [Inhabited α] (t : ℕ) (arr : List α) : α × ℕ :=
  let (i, t') := mulberryIdx t arr.length
  (arr.getD i default, t')

/-- The body of the Fisher-Yates loop of the offline `shuffle` at
index `i + 1`, by descending index: swap `a[i+1]` with `a[j]`,
`j = Math.floor(rng.next() * (i + 2))`. -/
def shuffleFrom [Inhabited α] (a : List α) (t : ℕ) : ℕ → List α × ℕ
  | 0 => (a, t)
  | i + 1 =>
      let (j, t') := mulberryIdx t (i + 2)
      let vi := a.getD (i + 1) default
      let vj := a.getD j default
      shuffleFrom ((a.set (i + 1) vj).set j vi) t' i

/-- `shuffle` from the offline synthesizer. -/
def shuffle [Inhabited α] (t : ℕ) (arr : List α) : List α × ℕ :=
  shuffleFrom arr t (arr.length - 1)

/-- `takeDistinct` from the offline synthesizer (`n ≤ 0` returns `[]` without
drawing from the generator; `slice(0, min n len)` is `take n`). -/
def takeDistinct [Inhabited α] (t : ℕ) (arr : List α) (n : ℕ) : List α × ℕ :=
  if n = 0 then ([], t)
  else
    let (a, t') := shuffle t arr
    (a.take (min n arr.length), t')

/-- `makeOptionIds` from the offline synthesizer (`alpha[i] ?? "O" + (i+1)`). -/
def makeOptionIds (n : ℕ) : List String :=
  (List.range n).map (fun i =>
    ["A", "B", "C", "D", "E", "F", "G", "H", "I", "J", "K", "L", "M",
     "N", "O", "P", "Q", "R", "S", "T", "U", "V", "W", "X", "Y", "Z"].getD i
      ("O" ++ toString (i + 1)))

/-- `sanitizeText` from the offline synthesizer: `replace(/\s+/g, " ").trim()`,
i.e. whitespace runs collapse to one space and outer whitespace is
dropped. -/
def sanitizeText (s : String) : String :=
  " ".intercalate ((s.split Char.isWhitespace).filter (fun w => w ≠ ""))

/-- One of the static PBQ templates of the offline synthesizer. -/
inductive PbqTemplate where
  | order (id title prompt : String) (items : List String)
  | pairing (id title prompt leftLabel rightLabel : String) (pairs : List (String × String))
  deriving Repr, DecidableEq

instance : Inhabited PbqTemplate := ⟨PbqTemplate.order "" "" "" []⟩

/-- `pbqTemplates(core).common` from the offline synthesizer. -/
def pbqTemplatesCommon : List PbqTemplate :=
  [ PbqTemplate.order "pbq-troubleshoot-order" "Troubleshooting methodology"
      "Put the standard troubleshooting steps in the correct order."
      [ "Identify the problem",
        "Establish a theory of probable cause",
        "Test the theory to determine the cause",
        "Establish a plan of action and implement the solution",
        "Verify full system functionality and implement preventive measures",
        "Document findings, actions, and outcomes" ] ]

/-- `pbqTemplates(core).specific` for core 220-1201. -/
def pbqTemplatesCore1 : List PbqTemplate :=
  [ PbqTemplate.pairing "pbq-ports-match" "Ports and protocols"
      "Match each port number to the correct protocol/service." "Port" "Service"
      [ ("22", "SSH"), ("53", "DNS"), ("80", "HTTP"), ("443", "HTTPS") ],
    PbqTemplate.pairing "pbq-wifi-match" "Wi‑Fi standards"
      "Match each Wi‑Fi generation to the correct standard label."
      "Generation" "Standard"
      [ ("Wi‑Fi 5", "802.11ac"), ("Wi‑Fi 6", "802.11ax"),
        ("Wi‑Fi 4", "802.11n"), ("Wi‑Fi 6E", "802.11ax (6 GHz)") ],
    PbqTemplate.order "pbq-router-harden" "Router hardening"
      "Order the following router hardening actions from first to last."
      [ "Change default admin credentials",
        "Update router firmware",
        "Disable WPS if not required",
        "Configure WPA2/WPA3 and set a strong passphrase",
        "Disable remote administration (unless required)",
        "Document settings and store backup config securely" ],
    PbqTemplate.pairing "pbq-cable-match" "Cables and connectors"
      "Match the connector to the cable type." "Connector" "Cable"
      [ ("RJ‑45", "Ethernet (twisted pair)"), ("LC", "Fiber optic (SFP transceiver)"),
        ("BNC", "Coaxial"), ("USB‑C", "USB") ] ]

/-- `pbqTemplates(core).specific` for core 220-1202. -/
def pbqTemplatesCore2 : List PbqTemplate :=
  [ PbqTemplate.pairing "pbq-windows-tools" "Windows tools"
      "Match each tool to the best use case." "Tool" "Use case"
      [ ("Task Manager", "View/stop processes and performance"),
        ("Event Viewer", "Review system/application logs"),
        ("Disk Management", "Create/format/assign volumes"),
        ("Device Manager", "Manage hardware devices/drivers") ],
    PbqTemplate.order "pbq-malware-flow" "Malware response workflow"
      "Order the steps for responding to a malware incident."
      [ "Identify and isolate the infected system",
        "Disable System Restore (if used in your procedure)",
        "Remediate/clean or reimage as required",
        "Update signatures and apply patches",
        "Re-enable protections and restore services",
        "Document incident and user education" ],
    PbqTemplate.pairing "pbq-ticket-triage" "Help desk triage"
      "Match each ticket description to the most appropriate priority."
      "Ticket" "Priority"
      [ ("Single user cannot print to local printer", "Low"),
        ("Multiple users cannot access shared drive", "High"),
        ("CEO laptop will not boot before a meeting", "High"),
        ("User requests software installation", "Medium") ],
    PbqTemplate.order "pbq-change-mgmt" "Change management"
      "Order common change management steps in a controlled environment."
      [ "Identify scope and risk",
        "Create a rollback plan",
        "Test in a staging environment",
        "Schedule and communicate downtime",
        "Implement the change",
        "Validate and document results" ] ]

/-- `pbqTemplates`, flattened the way
`buildPBQQuestion` consumes it (`[...common, ...specific]`). -/
def pbqTemplatesAll (core : CoreId) : List PbqTemplate :=
  pbqTemplatesCommon ++
    (if core = CoreId.core1201 then pbqTemplatesCore1 else pbqTemplatesCore2)

/-- `buildPBQQuestion` from the offline synthesizer. -/
def buildPBQQuestion (core : CoreId) (sessionId : String) (baseId : String)
    (objective : QuestionPlanItem) (t : ℕ) : Question × ℕ :=
  let (tpl, t1) := pickOne t (pbqTemplatesAll core)
  match tpl with
  | PbqTemplate.order _ _ prompt items =>
      let ids := makeOptionIds items.length
      let optionItems := items.enum.map (fun p => { id := ids.getD p.1 "", text := p.2 })
      ({ id := sessionId ++ "-" ++ baseId
         core := core
         domain := objective.domainLabel
         objective := objective.objectiveId
         objectiveTitle := objective.objectiveTitle
         objectiveBullets := objective.objectiveBullets
         type := QuestionType.pbqOrder
         prompt := prompt
         pbq := some (PbqData.order optionItems)
         correct := items
         explanation := "This PBQ practices a common workflow relevant to the exam objectives. Review the steps and why the order matters."
         options := [] }, t1)
  | PbqTemplate.pairing _ _ prompt leftLabel rightLabel tplPairs =>
      let (pairs, t2) := shuffle t1 tplPairs
      let leftIds := makeOptionIds pairs.length
      let rightIds := (makeOptionIds pairs.length).map (fun x => "R" ++ x)
      let left := pairs.enum.map (fun p => { id := leftIds.getD p.1 "", text := p.2.1 })
      let (right, t3) :=
        shuffle t2 (pairs.enum.map (fun p => { id := rightIds.getD p.1 "", text := p.2.2 }))
      let correctPairs := pairs.map (fun p => p.1 ++ "=>" ++ p.2)
      ({ id := sessionId ++ "-" ++ baseId
         core := core
         domain := objective.domainLabel
         objective := objective.objectiveId
         objectiveTitle := objective.objectiveTitle
         objectiveBullets := objective.objectiveBullets
         type := QuestionType.pbqMatch
         prompt := prompt
         pbq := some (PbqData.pairing leftLabel rightLabel left right)
         correct := correctPairs
         explanation := "This PBQ covers common mappings. Review why each left item matches the right item."
         options := [] }, t3)

/-- `allBulletPool` from the offline synthesizer. -/
def allBulletPool (cat : Catalog) (core : CoreId) : List String :=
  let ids := listObjectiveIds cat core
  let pool := ids.flatMap (fun id =>
    (((getObjectiveMeta cat core id).map (·.bullets)).getD []).filterMap (fun x =>
      let s := sanitizeText x
      if s ≠ "" ∧ s.length ≤ 120 then some s else none))
  if pool ≠ [] then pool
  else (ids.map (fun id =>
    sanitizeText (((getObjectiveMeta cat core id).map (·.title)).getD id))).filter
      (fun s => s ≠ "")

/-- `buildSingleFromObjective` from the offline synthesizer. -/
def buildSingleFromObjective (cat : Catalog) (core : CoreId) (sessionId baseId : String)
    (obj : QuestionPlanItem) (t : ℕ) : Question × ℕ :=
  let bullets := ((obj.objectiveBullets.map sanitizeText).filter (fun b => b ≠ "")).filter
    (fun b => b.length ≤ 140)
  let pool := allBulletPool cat core
  let (correctText, t1) :=
    if bullets ≠ [] then pickOne t bullets else (sanitizeText obj.objectiveTitle, t)
  let (distractors, t2) := takeDistinct t1 (pool.filter (fun x => x ≠ correctText)) 3
  let (shuffled, t3) := shuffle t2 (correctText :: distractors)
  let optsText := shuffled.take 4
  let ids := makeOptionIds optsText.length
  let options := optsText.enum.map (fun p => { id := ids.getD p.1 "", text := p.2 })
  let correctId := ((options.find? (fun o => o.text = correctText)).map (·.id)).getD
    (ids.getD 0 "")
  ({ id := sessionId ++ "-" ++ baseId
     core := core
     domain := obj.domainLabel
     objective := obj.objectiveId
     objectiveTitle := obj.objectiveTitle
     objectiveBullets := obj.objectiveBullets
     type := QuestionType.single
     prompt := "Which of the following is specifically listed under the objective:\n\"" ++
       sanitizeText obj.objectiveTitle ++ "\"?"
     options := options
     correct := [correctId]
     explanation := "\"" ++ correctText ++
       "\" is explicitly included under this objective. Review the objective bullets for related terms."
     focus := some correctText }, t3)

/-- `buildMultiFromObjective` from the offline synthesizer. -/
def buildMultiFromObjective (cat : Catalog) (core : CoreId) (sessionId baseId : String)
    (obj : QuestionPlanItem) (t : ℕ) : Question × ℕ :=
  let bullets := ((obj.objectiveBullets.map sanitizeText).filter (fun b => b ≠ "")).filter
    (fun b => b.length ≤ 140)
  if bullets.length < 2 then buildSingleFromObjective cat core sessionId baseId obj t
  else
    let pool := allBulletPool cat core
    let (correctTexts, t1) := takeDistinct t bullets 2
    let (distractors, t2) := takeDistinct t1 (pool.filter (fun x => x ∉ correctTexts)) 3
    let (shuffled, t3) := shuffle t2 (correctTexts ++ distractors)
    let optsText := shuffled.take 5
    let ids := makeOptionIds optsText.length
    let options := optsText.enum.map (fun p => { id := ids.getD p.1 "", text := p.2 })
    let correctIds := (options.filter (fun o => o.text ∈ correctTexts)).map (·.id)
    ({ id := sessionId ++ "-" ++ baseId
       core := core
       domain := obj.domainLabel
       objective := obj.objectiveId
       objectiveTitle := obj.objectiveTitle
       objectiveBullets := obj.objectiveBullets
       type := QuestionType.multi
       prompt := "Select ALL that apply. Which of the following are specifically listed under the objective:\n\"" ++
         sanitizeText obj.objectiveTitle ++ "\"?"
       options := options
       correct := correctIds
       explanation := "These items are listed under the objective. The distractors are from other objectives/domains."
       focus := some ("; ".intercalate correctTexts) }, t3)

/-- `String(counter).padStart(3, "0")` from `buildOfflineQuestions`. -/
def pad3 (n : ℕ) : String :=
  if n < 10 then "00" ++ toString n
  else if n < 100 then "0" ++ toString n
  else toString n

/-- `buildOfflineQuestions` from the offline synthesizer: seeds mulberry32 by
hashing `sessionId : core : difficulty`, shuffles the plan, then emits one
question per plan item, threading a single generator through every random
choice. -/
def buildOfflineQuestions (cat : Catalog) (core : CoreId) (sessionId : String)
    (config : SessionConfig) (plan : List QuestionPlanItem) : List Question :=
  let t0 := hashStringToSeed (sessionId ++ ":" ++ core.str ++ ":" ++ config.difficulty.str)
  let (planShuffled, t1) := shuffle t0 plan
  let final := planShuffled.foldl
    (fun (acc : List Question × ℕ × ℕ) p =>
      let counter := acc.2.1 + 1
      let baseId := "offline-" ++ pad3 counter
      let (q, t') :=
        if p.type = QuestionType.pbqOrder ∨ p.type = QuestionType.pbqMatch then
          buildPBQQuestion core sessionId baseId p acc.2.2
        else if p.type = QuestionType.multi then
          buildMultiFromObjective cat core sessionId baseId p acc.2.2
        else
          buildSingleFromObjective cat core sessionId baseId p acc.2.2
      (acc.1 ++ [q], counter, t'))
    ([], 0, t1)
  final.1.take plan.length

/-! ## Normalizer (`normalizeQuestions` from sessionPlanner.ts) -/

/-- One `correctPairs` element of a raw item. -/
structure RawPair where
  leftIndex : ℤ
  rightIndex : ℤ
  deriving Repr, DecidableEq

/-- A backend- or synthesizer-produced raw item, with every field already
of the type the `RawItem` shape prescribes (the claims about the
normalizer quantify over shape-conforming inputs; indices may still be out
of range).  String fields the source reads through `||` default to the
fallback when empty, which `jsOr` models. -/
structure RawItem where
  type : String
  domain : String := ""
  objectiveId : String
  objectiveTitle : String := ""
  objectiveBullets : List String := []
  prompt : String := ""
  explanation : String := ""
  options : List String := []
  correctIndices : List ℤ := []
  orderItems : List String := []
  correctOrder : List ℤ := []
  left : List String := []
  right : List String := []
  correctPairs : List RawPair := []
  leftLabel : String := ""
  rightLabel : String := ""
  deriving Repr, DecidableEq

/-- `a || b` for JS strings (empty string is falsy). -/
def jsOr (a b : String) : String := if a = "" then b else a

/-- `arr[i]` for a JS integer index `i` (negative or too large gives
`undefined`). -/
def jsGet? (l : List α) (i : ℤ) : Option α :=
  if 0 ≤ i then l.get? i.toNat else none

/-- `String.prototype.startsWith`: whether `pre` is a prefix of `s`
(modelled on the character lists). -/
def jsStartsWith (s pre : String) : Bool := pre.data.isPrefixOf s.data

/-- The text of a possibly-missing entry as a JS template literal renders
it (`undefined` becomes the string `"undefined"`). -/
def jsTemplateText : Option OptionItem → String
  | some o => o.text
  | none => "undefined"

/-- The body of the `for` loop of `normalizeQuestions` for one raw item
with sequence number `seq`: `some` question pushed, or `none` when the
item's `type` matches no branch.  `displayShuffle` is the oracle for the
`sort(() => Math.random() - 0.5)` display shuffle of `pbq-order` items
(an unspecified permutation drawn from unseeded randomness). -/
def normalizeItem (core : CoreId) (sessionId : String)
    (displayShuffle : ℕ → List OptionItem → List OptionItem) (seq : ℕ)
    (it : RawItem) : Option Question :=
  let id := sessionId ++ "-q-" ++ toString seq
  let objective := it.objectiveId
  let objectiveTitle := jsOr it.objectiveTitle ("Objective " ++ objective)
  let objectiveBullets := it.objectiveBullets
  let domain := jsOr it.domain (splitHead objective ++ ".0")
  let prompt := it.prompt
  let explanation := jsOr it.explanation "Review the objective and rationale."
  if it.type = "single" ∨ it.type = "multi" then
    let options := it.options.enum.map (fun p =>
      { id := "o" ++ toString (p.1 + 1), text := p.2 })
    let correct := it.correctIndices.filterMap (fun i => (jsGet? options i).map (·.id))
    some { id := id, core := core, domain := domain, objective := objective,
           objectiveTitle := objectiveTitle, objectiveBullets := objectiveBullets,
           type := if it.type = "single" then QuestionType.single else QuestionType.multi,
           prompt := prompt, options := options, correct := correct,
           explanation := explanation }
  else if it.type = "pbq-order" then
    let baseItems := it.orderItems.enum.map (fun p =>
      { id := "s" ++ toString (p.1 + 1), text := p.2 })
    let shuffled := displayShuffle seq baseItems
    let correct := it.correctOrder.filterMap (fun i => (jsGet? baseItems i).map (·.text))
    some { id := id, core := core, domain := domain, objective := objective,
           objectiveTitle := objectiveTitle, objectiveBullets := objectiveBullets,
           type := QuestionType.pbqOrder, prompt := prompt, correct := correct,
           explanation := explanation, pbq := some (PbqData.order shuffled) }
  else if it.type = "pbq-match" then
    let left := it.left.enum.map (fun p =>
      { id := "l" ++ toString (p.1 + 1), text := p.2 })
    let right := it.right.enum.map (fun p =>
      { id := "r" ++ toString (p.1 + 1), text := p.2 })
    let correct := (it.correctPairs.map (fun p =>
        jsTemplateText (jsGet? left p.leftIndex) ++ "=>" ++
          jsTemplateText (jsGet? right p.rightIndex))).filter
      (fun x => ¬ jsStartsWith x "undefined")
    some { id := id, core := core, domain := domain, objective := objective,
           objectiveTitle := objectiveTitle, objectiveBullets := objectiveBullets,
           type := QuestionType.pbqMatch, prompt := prompt, correct := correct,
           explanation := explanation,
           pbq := some (PbqData.pairing (jsOr it.leftLabel "Left")
             (jsOr it.rightLabel "Right") left right) }
  else none

/-- `normalizeQuestions` from sessionPlanner.ts: `seq` is incremented for
every input item (recognized or not), so item `i` gets sequence number
`i + 1`; unrecognized types push nothing. -/
def normalizeQuestions (core : CoreId) (sessionId : String)
    (displayShuffle : ℕ → List OptionItem → List OptionItem)
    (items : List RawItem) : List Question :=
  items.enum.filterMap (fun p => normalizeItem core sessionId displayShuffle (p.1 + 1) p.2)

/-- The session-finalization fragment of `runGeneration` (App.tsx): the
normalized questions are sliced to `EXAM_QUESTION_COUNT` and only then
length-checked; a shortfall throws the surfaced error message. -/
def finalizeNormalized (core : CoreId) (sessionId : String)
    (displayShuffle : ℕ → List OptionItem → List OptionItem)
    (items : List RawItem) : Except String (List Question) :=
  let normalized := (normalizeQuestions core sessionId displayShuffle items).take
    EXAM_QUESTION_COUNT
  if normalized.length ≠ EXAM_QUESTION_COUNT then
    Except.error ("Generator returned " ++ toString normalized.length ++
      " questions; expected " ++ toString EXAM_QUESTION_COUNT ++ ".")
  else Except.ok normalized

/-! ## Scoring engine (`setEq`, `scoreExam` from scoring.ts) -/

/-- `setEq` from scoring.ts: length check, then elementwise equality of the
two sorted copies (the sort order is immaterial for the comparison; the JS
default comparator is a total order on strings, as is `≤` here). -/
def setEq (a b : List String) : Bool :=
  if a.length ≠ b.length then false
  else a.insertionSort (· ≤ ·) == b.insertionSort (· ≤ ·)

/-- The per-question `pbqState` entry (`pbqState?.[q.id]` in scoring.ts,
`any`-typed in the source: `order` and `pairs` are read defensively). -/
structure PbqAnswer where
  order : Option (List String) := none
  pairs : Option (List String) := none

/-- The submitted-answer environment of `scoreExam`: `answers` maps a
question id to the chosen option ids (`answers[q.id] ?? []`), `pbqState`
is the optional PBQ interaction state. -/
structure Submission where
  answers : String → Option (List String)
  pbqState : Option (String → Option PbqAnswer)

/-- The `ok` computed for one question inside the loop of `scoreExam`. -/
def questionOk (sub : Submission) (q : Question) : Bool :=
  match q.type with
  | QuestionType.pbqOrder =>
      match sub.pbqState.bind (fun m => (m q.id).bind (·.order)) with
      | some order =>
          order.length == q.correct.length &&
            order.enum.all (fun p => q.correct.get? p.1 == some p.2)
      | none => false
  | QuestionType.pbqMatch =>
      match sub.pbqState.bind (fun m => (m q.id).bind (·.pairs)) with
      | some pairs => setEq pairs q.correct
      | none => false
  | _ => setEq ((sub.answers q.id).getD []) q.correct

/-- The per-domain accumulator update of `scoreExam` (`domainAgg`): a JS
record in insertion order, so the entry list appends a new domain and
updates an existing one in place. -/
def domainAggAdd (agg : List (String × ℕ × ℕ)) (domain : String) (ok : Bool) :
    List (String × ℕ × ℕ) :=
  if agg.any (fun e => e.1 = domain) then
    agg.map (fun e =>
      if e.1 = domain then (e.1, e.2.1 + (if ok then 1 else 0), e.2.2 + 1) else e)
  else agg ++ [(domain, (if ok then 1 else 0), 1)]

/-- The loop state of `scoreExam`. -/
structure ScoreState where
  correctCount : ℕ
  scored : List ScoredQuestion
  domainAgg : List (String × ℕ × ℕ)

/-- One iteration of the loop of `scoreExam`. -/
def scoreStep (sub : Submission) (st : ScoreState) (q : Question) : ScoreState :=
  let ok := questionOk sub q
  { correctCount := st.correctCount + (if ok then 1 else 0)
    scored := st.scored ++ [{ questionId := q.id, isCorrect := ok }]
    domainAgg := domainAggAdd st.domainAgg q.domain ok }

/-- `scoreExam` from scoring.ts.  `percent` is
`Math.round((correctCount / total) * 1000) / 10`; with `total = 0` the JS
division yields `NaN` (modelled `none`), otherwise the exact rational
rounding (`round` rounds halves up, as `Math.round` does). -/
def scoreExam (session : ExamSession) (sub : Submission) : ExamResult :=
  let final := session.questions.foldl (scoreStep sub)
    { correctCount := 0, scored := [], domainAgg := [] }
  let total := session.questions.length
  { percent :=
      if total = 0 then none
      else some (((round (((final.correctCount : ℚ) / (total : ℚ)) * 1000) : ℤ) : ℚ) / 10)
    correctCount := final.correctCount
    total := total
    byDomain := final.domainAgg
    scored := final.scored }

/-! ## Remote synthesizer (`validateBatch`, `callOpenAI` of the `/api/generate`
serverless route, in its retrying prompt-contract version) -/

/-- A parsed JSON value (what `extractJsonObject` hands to
`validateBatch`).  Object fields are kept in order; `JSON.parse` produces
unique keys. -/
inductive Json where
  | null
  | bool (b : Bool)
  | num (q : ℚ)
  | str (s : String)
  | arr (elems : List Json)
  | obj (fields : List (String × Json))

/-- Field lookup on a JSON object (`undefined` otherwise). -/
def Json.getField : Json → String → Option Json
  | .obj fields, k => (fields.find? (fun p => p.1 = k)).map (·.2)
  | _, _ => none

/-- `k in q` for a JSON object. -/
def Json.hasField (j : Json) (k : String) : Bool :=
  (j.getField k).isSome

/-- `Array.isArray` / element list of a JSON value. -/
def Json.asArr? : Json → Option (List Json)
  | .arr elems => some elems
  | _ => none

/-- The string value of a JSON value, if it is a string. -/
def Json.asStr? : Json → Option String
  | .str s => some s
  | _ => none

/-- The `type`-specific clause of the item loop of `validateBatch`. -/
def validateItemTyped (q : Json) (ty : String) : Except String Unit :=
  if ty = "single" ∨ ty = "multi" then
    match (q.getField "options").bind Json.asArr? with
    | some opts =>
        if opts.length < 4 ∨ 6 < opts.length then
          Except.error "options must be 4..6 strings."
        else
          match (q.getField "correctIndices").bind Json.asArr? with
          | some ci =>
              if ci.length < 1 ∨ 3 < ci.length then
                Except.error "correctIndices must be 1..3 integers."
              else Except.ok ()
          | none => Except.error "correctIndices must be 1..3 integers."
    | none => Except.error "options must be 4..6 strings."
  else if ty = "pbq-order" then
    match (q.getField "orderItems").bind Json.asArr? with
    | some oi =>
        if oi.length < 4 ∨ 8 < oi.length then
          Except.error "orderItems must be 4..8 strings."
        else
          match (q.getField "correctOrder").bind Json.asArr? with
          | some co =>
              if co.length ≠ oi.length then
                Except.error "correctOrder length must match orderItems length."
              else Except.ok ()
          | none => Except.error "correctOrder length must match orderItems length."
    | none => Except.error "orderItems must be 4..8 strings."
  else if ty = "pbq-match" then
    match (q.getField "left").bind Json.asArr? with
    | some l =>
        if l.length < 3 ∨ 8 < l.length then Except.error "left must be 3..8 strings."
        else
          match (q.getField "right").bind Json.asArr? with
          | some r =>
              if r.length < 3 ∨ 8 < r.length then Except.error "right must be 3..8 strings."
              else
                match (q.getField "correctPairs").bind Json.asArr? with
                | some cp =>
                    if cp.length < 1 then
                      Except.error "correctPairs must be a non-empty array."
                    else Except.ok ()
                | none => Except.error "correctPairs must be a non-empty array."
          | none => Except.error "right must be 3..8 strings."
    | none => Except.error "left must be 3..8 strings."
  else Except.ok ()

/-- The body of the `for (const q of obj.items)` loop of `validateBatch`
(first failed check throws). -/
def validateItem (q : Json) : Except String Unit := do
  match q with
  | Json.obj _ =>
      let reqBase := ["type", "domain", "objectiveId", "objectiveTitle",
        "objectiveBullets", "prompt", "explanation"]
      match reqBase.find? (fun k => ¬ q.hasField k) with
      | some k => Except.error ("Missing required field \'" ++ k ++ "\'.")
      | none =>
          let tyOk := match (q.getField "type").bind Json.asStr? with
            | some s => s ∈ ["single", "multi", "pbq-order", "pbq-match"]
            | none => false
          if tyOk = false then Except.error "Invalid type."
          else if ((q.getField "objectiveBullets").bind Json.asArr?).isNone then
            Except.error "objectiveBullets must be an array of strings."
          else
            match (q.getField "type").bind Json.asStr? with
            | some ty => validateItemTyped q ty
            | none => Except.ok ()
  | _ => Except.error "Each item must be an object."

/-- `validateBatch` from the `/api/generate` route: the response object must have
`items` as its only top-level key, an array of exactly the request length,
every element passing the per-item checks; the validated elements are
returned. -/
def validateBatch (items : List QuestionPlanItem) (j : Json) : Except String (List Json) := do
  match j with
  | Json.obj fields =>
      let keys := fields.map (·.1)
      if ¬ (keys.length = 1 ∧ keys.getD 0 "" = "items") then
        Except.error "Top-level must contain only \'items\'."
      else
        match (j.getField "items").bind Json.asArr? with
        | some respItems =>
            if respItems.length ≠ items.length then
              Except.error ("\'items\' length " ++ toString respItems.length ++
                " !== expected " ++ toString items.length ++ ".")
            else do
              let _ ← respItems.foldlM (fun _ q => validateItem q) ()
              Except.ok respItems
        | none => Except.error "\'items\' must be an array."
  | _ => Except.error "Top-level JSON must be an object."

/-- The string value of a `QuestionType` (the `type` field of a plan item
on the wire). -/
def QuestionType.str : QuestionType → String
  | .single => "single"
  | .multi => "multi"
  | .pbqOrder => "pbq-order"
  | .pbqMatch => "pbq-match"

/-- The `contract` lines of `callOpenAI`. -/
def contractLines (items : List QuestionPlanItem) : List String :=
  [ "Return STRICT JSON (no markdown, no code fences).",
    "Top-level must be: \x7b\"items\": [...]\x7d",
    "items must have exactly " ++ toString items.length ++ " elements.",
    "Each item MUST include:",
    "- type: one of \'single\' | \'multi\' | \'pbq-order\' | \'pbq-match\'",
    "- domain: string (e.g., \'1.0 Mobile Devices\')",
    "- objectiveId: string (e.g., \'1.1\')",
    "- objectiveTitle: string",
    "- objectiveBullets: string[]",
    "- prompt: string",
    "- explanation: string",
    "",
    "Type-specific fields:",
    "- single/multi: options: string[4..6], correctIndices: int[1..3] (0-based, within options length)",
    "- pbq-order: orderItems: string[4..8], correctOrder: int[] (0-based permutation same length as orderItems)",
    "- pbq-match: left: string[3..8], right: string[3..8], correctPairs: \x7bleftIndex:int,rightIndex:int\x7d[]",
    "",
    "Do not include any additional top-level keys besides \'items\'." ]

/-- The `baseSystem` lines of `callOpenAI`. -/
def baseSystem (items : List QuestionPlanItem) : List String :=
  [ "You are a CompTIA A+ (220-1201 / 220-1202) item writer.",
    "Write ORIGINAL practice questions aligned to the provided objective. Do NOT reproduce copyrighted exam content.",
    "Keep prompts concise and realistic (help-desk / technician scenarios).",
    "Difficulty rules:",
    "- easy: straightforward, minimal ambiguity; distractors clearly wrong; no tricky wording.",
    "- medium: exam-like; moderate scenario detail; plausible distractors; one clear best answer.",
    "- hard: deeper reasoning within the objective; closer distractors; multi-step scenarios; avoid trick questions.",
    "",
    "Output format requirements:" ] ++ contractLines items

/-- The `userPayload` object of `callOpenAI` as a JSON value. -/
def userPayload (items : List QuestionPlanItem) (difficulty : Difficulty) : Json :=
  Json.obj
    [ ("purpose", Json.str "Generate a batch of CompTIA A+ practice questions."),
      ("difficulty", Json.str difficulty.str),
      ("items", Json.arr (items.map (fun it => Json.obj
        [ ("type", Json.str it.type.str),
          ("domain", Json.str ((it.domainNumber ++ " " ++ it.domainLabel).trim)),
          ("objectiveId", Json.str it.objectiveId),
          ("objectiveTitle", Json.str it.objectiveTitle),
          ("objectiveBullets", Json.arr (it.objectiveBullets.map Json.str)) ]))) ]

/-- The system prompt of attempt `0` (no previous error) or attempt `1`
(`lastErr` appended: `"Your previous output was invalid." ... Error: …`,
the error text cut to 500 units as `String(lastErr).slice(0, 500)` does). -/
def attemptSystem (base : List String) : Option String → List String
  | none => base
  | some e =>
      base ++ ["", "Your previous output was invalid.",
        "Fix the JSON and re-output per contract. Error: " ++ e.take 500]

/-- The outcome of one `fetch` to the backend, as `callOpenAI` consumes
it: a non-ok HTTP response (which `callOpenAI` throws on, outside the
retry loop), or a response body whose assembled output text has been put
through `extractJsonObject` — `Except.error` carries the message thrown
during JSON extraction or parsing, which the source catches like a
validation failure. -/
inductive FetchResult where
  | httpError (status : ℕ) (text : String)
  | ok (parsed : Except String Json)

/-- A deterministic model of the generative backend: a response for each
request (system prompt lines and user payload). -/
def Backend : Type := List String → Json → FetchResult

/-- One attempt of the retry loop of `callOpenAI`: transport errors throw
out of the loop; otherwise the parsed object is validated and either
returned or its failure message recorded for the retry. -/
def callAttempt (backend : Backend) (items : List QuestionPlanItem)
    (difficulty : Difficulty) (lastErr : Option String) :
    Except String (Except String (List Json)) :=
  match backend (attemptSystem (baseSystem items) lastErr) (userPayload items difficulty) with
  | FetchResult.httpError status text =>
      Except.error ("OpenAI error " ++ toString status ++ ": " ++ text)
  | FetchResult.ok parsed =>
      Except.ok (parsed.bind (fun obj => validateBatch items obj))

/-- `callOpenAI` from the `/api/generate` route: at most two attempts; the second
carries the first validation failure in its system prompt; a second
validation failure fails the whole call with the last message. -/
def callOpenAI (backend : Backend) (items : List QuestionPlanItem)
    (difficulty : Difficulty) : Except String (List Json) :=
  match callAttempt backend items difficulty none with
  | Except.error transport => Except.error transport
  | Except.ok (Except.ok out) => Except.ok out
  | Except.ok (Except.error e0) =>
      match callAttempt backend items difficulty (some e0) with
      | Except.error transport => Except.error transport
      | Except.ok (Except.ok out) => Except.ok out
      | Except.ok (Except.error e1) =>
          Except.error ("Model returned invalid JSON after retries: " ++ e1)

/-! ## Concrete sample inputs used by counterexamples and witnesses -/

/-- A well-formed raw `single` item (4 options, one in-range correct
index). -/
def rawSingleSample : RawItem :=
  { type := "single", objectiveId := "1.1",
    options := ["alpha", "beta", "gamma", "delta"], correctIndices := [0] }

/-- A raw `pbq-match` item whose only pair has an in-range `leftIndex` and
an out-of-range `rightIndex`. -/
def rawMatchBadRight : RawItem :=
  { type := "pbq-match", objectiveId := "1.1",
    left := ["A", "B", "C"], right := ["X", "Y", "Z"],
    correctPairs := [{ leftIndex := 0, rightIndex := 99 }] }

/-- The identity display-shuffle oracle (one fixed behavior of the
`Math.random()`-driven display sort). -/
def idShuffle : ℕ → List OptionItem → List OptionItem := fun _ l => l

/-- A concrete canonical `single` question. -/
def qSingleSample : Question :=
  { id := "q1", core := CoreId.core1201, domain := "1.0", objective := "1.1",
    objectiveTitle := "t", objectiveBullets := [], type := QuestionType.single,
    prompt := "p", options := [{ id := "o1", text := "alpha" }, { id := "o2", text := "beta" }],
    correct := ["o1"], explanation := "e" }

/-- A concrete canonical `pbq-order` question. -/
def qOrderSample : Question :=
  { id := "q2", core := CoreId.core1201, domain := "1.0", objective := "1.1",
    objectiveTitle := "t", objectiveBullets := [], type := QuestionType.pbqOrder,
    prompt := "p", correct := ["first", "second"], explanation := "e",
    pbq := some (PbqData.order [{ id := "s1", text := "first" }, { id := "s2", text := "second" }]) }

/-- A one-question session around `qSingleSample`. -/
def sessionSingleSample : ExamSession :=
  { sessionId := "s", core := CoreId.core1201, durationSeconds := 0,
    questions := [qSingleSample] }

/-- A one-question session around `qOrderSample`. -/
def sessionOrderSample : ExamSession :=
  { sessionId := "s", core := CoreId.core1201, durationSeconds := 0,
    questions := [qOrderSample] }

/-- The canonical question the normalizer produces from `rawSingleSample`
at sequence number 1. -/
def qNormSample : Question :=
  { id := "s-q-1", core := CoreId.core1201, domain := "1.0", objective := "1.1",
    objectiveTitle := "Objective 1.1", objectiveBullets := [], type := QuestionType.single,
    prompt := "",
    options := [{ id := "o1", text := "alpha" }, { id := "o2", text := "beta" },
      { id := "o3", text := "gamma" }, { id := "o4", text := "delta" }],
    correct := ["o1"], explanation := "Review the objective and rationale." }

/-- A concrete, well-formed plan item. -/
def planItemSample : QuestionPlanItem :=
  { domainNumber := "1.0", domainLabel := "Mobile Devices", objectiveId := "1.1",
    objectiveTitle := "Title", objectiveBullets := [], type := QuestionType.single }

/-- A backend that always answers with the parseable object
`{"items": []}` (an items array one element short of a one-item
request). -/
def backendEmptyItems : Backend :=
  fun _ _ => FetchResult.ok (Except.ok (Json.obj [("items", Json.arr [])]))

/-! ## Theorems -/

/-- C3: the offline synthesizer is a deterministic function of
`(sessionId, core, difficulty)` and the plan: two invocations of
`buildOfflineQuestions` that agree on `sessionId`, `core`,
`config.difficulty` and the plan (and read the same objective catalogue)
produce identical question sequences — every random choice draws only from
the generator seeded by hashing those three inputs, so no other part of
the configuration can influence the output. -/
theorem buildOfflineQuestions_deterministic (cat : Catalog) (core : CoreId)
    (sessionId : String) (config config' : SessionConfig) (plan : List QuestionPlanItem)
    (h : config.difficulty = config'.difficulty) :
    buildOfflineQuestions cat core sessionId config plan =
      buildOfflineQuestions cat core sessionId config' plan := by
  unfold buildOfflineQuestions
  rw [h]

/-- Witness for C3 at concrete inputs: two configurations differing in
`pbqCount` and `showObjectiveHints` but sharing the difficulty. -/
theorem buildOfflineQuestions_deterministic_witness :
    buildOfflineQuestions (fun _ => []) CoreId.core1201 "sess"
        { pbqCount := 0, showObjectiveHints := false, difficulty := Difficulty.medium } [] =
      buildOfflineQuestions (fun _ => []) CoreId.core1201 "sess"
        { pbqCount := 5, showObjectiveHints := true, difficulty := Difficulty.medium } [] :=
  buildOfflineQuestions_deterministic (fun _ => []) CoreId.core1201 "sess" _ _ [] rfl

/-- C10: on a session with an empty question list, `scoreExam` does not
guard the percent division: it returns `total = 0`, `correctCount = 0`,
and `percent` is the JS `NaN` of `round((0/0) * 1000) / 10` (modelled
`none`), not `0` and not an error. -/
theorem scoreExam_empty_nan (session : ExamSession) (sub : Submission)
    (h : session.questions = []) :
    (scoreExam session sub).total = 0 ∧ (scoreExam session sub).correctCount = 0 ∧
      (scoreExam session sub).percent = none := by
  unfold scoreExam
  rw [h]
  simp

/-- Witness for C10: a concrete empty session. -/
theorem scoreExam_empty_nan_witness :
    (scoreExam
        { sessionId := "s", core := CoreId.core1201, durationSeconds := 0, questions := [] }
        { answers := fun _ => none, pbqState := none }).total = 0 ∧
      (scoreExam
        { sessionId := "s", core := CoreId.core1201, durationSeconds := 0, questions := [] }
        { answers := fun _ => none, pbqState := none }).correctCount = 0 ∧
      (scoreExam
        { sessionId := "s", core := CoreId.core1201, durationSeconds := 0, questions := [] }
        { answers := fun _ => none, pbqState := none }).percent = none :=
  scoreExam_empty_nan _ _ rfl

/-- C6 counterexample: the claim says the allocator fails with an
`InvalidAllocation` error whenever the key list is empty (among other
conditions) and returns no counts map on such inputs; but at
`total = 0` with the empty key list the source returns a counts record
normally — there is no error path in `allocateByWeight` at all. -/
theorem allocateByWeight_no_error_on_empty :
    (allocateByWeight 0 []).isCounts = true := by rfl

/-- C6 (amended): `allocateByWeight` has no `InvalidAllocation` error
path.  With an empty key list and `T = 0` it returns a counts record; with
an empty key list and `T > 0` the distribution loop indexes into the empty
`byRemainder` array and crashes with a TypeError (not a typed allocation
error); with a non-empty key list whose weights sum to `0` the division by
zero propagates `NaN` into every count instead of raising an error. -/
theorem allocateByWeight_invalid_inputs (total : ℕ) (blueprint : List DomainBlueprint)
    (hne : blueprint ≠ []) (hz : (blueprint.map (·.weight)).sum = 0) :
    (allocateByWeight 0 []).isCounts = true ∧
      (0 < total → allocateByWeight total [] = AllocResult.crash) ∧
      allocateByWeight total blueprint = AllocResult.nan := by
  refine ⟨rfl, fun hpos => ?_, ?_⟩
  · have h2 : (allocByRemainder total ([] : List DomainBlueprint)).length = 0 ∧
        0 < allocRemaining total [] := by
      refine ⟨rfl, ?_⟩
      show (0 : ℤ) < (total : ℤ) - allocUsed total []
      rw [show allocUsed total ([] : List DomainBlueprint) = 0 from rfl]
      omega
    unfold allocateByWeight
    rw [if_neg (by simp), if_pos h2]
  · have hz2 : allocWsum blueprint = 0 := hz
    unfold allocateByWeight
    rw [if_pos ⟨hne, hz2⟩]

/-- Witness for C6's amended theorem at a concrete invalid input: one
all-zero-weight domain, `T = 1`. -/
theorem allocateByWeight_invalid_inputs_witness :
    (allocateByWeight 0 []).isCounts = true ∧
      allocateByWeight 1 [] = AllocResult.crash ∧
      allocateByWeight 1
        [{ domainNumber := "1.0", domainLabel := "Zero", weight := 0 }] = AllocResult.nan :=
  ⟨(allocateByWeight_invalid_inputs 1 [⟨"1.0", "Zero", 0⟩] (by decide) (by decide)).1,
   (allocateByWeight_invalid_inputs 1 [⟨"1.0", "Zero", 0⟩] (by decide) (by decide)).2.1
     (by decide),
   (allocateByWeight_invalid_inputs 1 [⟨"1.0", "Zero", 0⟩] (by decide) (by decide)).2.2⟩

/-- C5 counterexample: the claim says a normalized count strictly greater
than the session length (90) is surfaced as a `SessionIncomplete` error
rather than silently cut down; but on 91 normalizable items the
finalization fragment of `runGeneration` slices to 90 *before* the length
check and returns a session normally. -/
theorem finalizeNormalized_accepts_91 :
    (finalizeNormalized CoreId.core1201 "s" idShuffle
        (List.replicate 91 rawSingleSample)).isOk = true ∧
      (normalizeQuestions CoreId.core1201 "s" idShuffle
        (List.replicate 91 rawSingleSample)).length = 91 := by
  constructor
  · decide
  · decide

/-- C5 (amended): if the normalizer yields fewer than 90 questions, session
assembly fails with the surfaced length error; if it yields 90 or more,
the list is silently truncated to the first 90 and accepted. -/
theorem finalizeNormalized_spec (core : CoreId) (sessionId : String)
    (displayShuffle : ℕ → List OptionItem → List OptionItem) (items : List RawItem) :
    ((normalizeQuestions core sessionId displayShuffle items).length < EXAM_QUESTION_COUNT →
      finalizeNormalized core sessionId displayShuffle items =
        Except.error ("Generator returned " ++
          toString (normalizeQuestions core sessionId displayShuffle items).length ++
          " questions; expected " ++ toString EXAM_QUESTION_COUNT ++ ".")) ∧
    (EXAM_QUESTION_COUNT ≤ (normalizeQuestions core sessionId displayShuffle items).length →
      finalizeNormalized core sessionId displayShuffle items =
        Except.ok ((normalizeQuestions core sessionId displayShuffle items).take
          EXAM_QUESTION_COUNT)) := by
  unfold finalizeNormalized
  dsimp only
  constructor
  · intro h
    rw [List.length_take, min_eq_right (le_of_lt h), if_pos (Nat.ne_of_lt h)]
  · intro h
    rw [List.length_take, min_eq_left h]
    simp

/-- Witness for C5's amended theorem: the empty item list falls short and
errors; 91 well-formed items are truncated and accepted. -/
theorem finalizeNormalized_spec_witness :
    finalizeNormalized CoreId.core1201 "s" idShuffle [] =
      Except.error "Generator returned 0 questions; expected 90." ∧
    finalizeNormalized CoreId.core1201 "s" idShuffle (List.replicate 91 rawSingleSample) =
      Except.ok ((normalizeQuestions CoreId.core1201 "s" idShuffle
        (List.replicate 91 rawSingleSample)).take EXAM_QUESTION_COUNT) :=
  ⟨(finalizeNormalized_spec CoreId.core1201 "s" idShuffle []).1 (by decide),
   (finalizeNormalized_spec CoreId.core1201 "s" idShuffle
      (List.replicate 91 rawSingleSample)).2 (by decide)⟩

/-- The scored list produced by folding `scoreStep` over a question list:
one entry per question, in order. -/
theorem scoreFold_scored (sub : Submission) (qs : List Question) (st : ScoreState) :
    (qs.foldl (scoreStep sub) st).scored =
      st.scored ++ qs.map (fun q => { questionId := q.id, isCorrect := questionOk sub q }) := by
  induction qs generalizing st with
  | nil => simp
  | cons q qs ih => simp [scoreStep, ih, List.append_assoc]

/-- The scored entry of question `i` records `questionOk` of that
question. -/
theorem scoreExam_scored_getD (session : ExamSession) (sub : Submission) (i : ℕ)
    (hi : i < session.questions.length) :
    (scoreExam session sub).scored.getD i default =
      { questionId := (session.questions.getD i default).id
        isCorrect := questionOk sub (session.questions.getD i default) } := by
  unfold scoreExam
  dsimp only
  rw [scoreFold_scored]
  simp only [List.nil_append, List.getD_eq_getElem?_getD, List.getElem?_map,
    List.getElem?_eq_getElem hi]
  rfl

/-- `setEq` decides multiset (permutation) equality: the length guard plus
elementwise equality of the two sorted copies. -/
theorem setEq_true_iff_perm (a b : List String) : setEq a b = true ↔ a.Perm b := by
  unfold setEq
  by_cases h : a.length ≠ b.length
  · rw [if_pos h]
    constructor
    · intro hf
      exact absurd hf (by simp)
    · intro hp
      exact absurd hp.length_eq h
  · rw [if_neg h, beq_iff_eq]
    constructor
    · intro hs
      exact ((List.perm_insertionSort _ a).symm.trans (hs ▸ List.perm_insertionSort _ b))
    · intro hp
      exact List.eq_of_perm_of_sorted
        (((List.perm_insertionSort _ a).trans hp).trans (List.perm_insertionSort _ b).symm)
        (List.sorted_insertionSort _ a) (List.sorted_insertionSort _ b)

/-- On duplicate-free lists, `setEq` is exactly unordered-set equality:
same cardinality and same membership. -/
theorem setEq_true_iff_set_eq (a b : List String) (ha : a.Nodup) (hb : b.Nodup) :
    setEq a b = true ↔ (a.length = b.length ∧ ∀ x, x ∈ a ↔ x ∈ b) := by
  rw [setEq_true_iff_perm]
  constructor
  · intro hp
    exact ⟨hp.length_eq, fun x => hp.mem_iff⟩
  · intro hm
    exact (List.perm_ext_iff_of_nodup ha hb).mpr hm.2

/-- C2: for a canonical `single`/`multi` question, `scoreExam` marks the
question correct exactly when the submitted option-id set equals the
canonical correct set as an unordered set (same cardinality and same
membership); a strict superset or a strict subset of the correct set
scores `false`. -/
theorem scoreExam_set_equality (session : ExamSession) (sub : Submission) (i : ℕ)
    (hi : i < session.questions.length)
    (hty : (session.questions.getD i default).type = QuestionType.single ∨
      (session.questions.getD i default).type = QuestionType.multi)
    (hnsub : ((sub.answers (session.questions.getD i default).id).getD []).Nodup)
    (hncor : (session.questions.getD i default).correct.Nodup) :
    (((scoreExam session sub).scored.getD i default).isCorrect = true ↔
      (((sub.answers (session.questions.getD i default).id).getD []).length =
          (session.questions.getD i default).correct.length ∧
        ∀ x, x ∈ (sub.answers (session.questions.getD i default).id).getD [] ↔
          x ∈ (session.questions.getD i default).correct)) ∧
    ((session.questions.getD i default).correct ⊆
          (sub.answers (session.questions.getD i default).id).getD [] ∧
        (∃ x ∈ (sub.answers (session.questions.getD i default).id).getD [],
          x ∉ (session.questions.getD i default).correct) →
      ((scoreExam session sub).scored.getD i default).isCorrect = false) ∧
    ((sub.answers (session.questions.getD i default).id).getD [] ⊆
          (session.questions.getD i default).correct ∧
        (∃ x ∈ (session.questions.getD i default).correct,
          x ∉ (sub.answers (session.questions.getD i default).id).getD []) →
      ((scoreExam session sub).scored.getD i default).isCorrect = false) := by
  rw [scoreExam_scored_getD session sub i hi]
  have hok : questionOk sub (session.questions.getD i default) =
      setEq ((sub.answers (session.questions.getD i default).id).getD [])
        (session.questions.getD i default).correct := by
    unfold questionOk
    rcases hty with h | h <;> rw [h]
  simp only [hok]
  rw [setEq_true_iff_set_eq _ _ hnsub hncor]
  refine ⟨Iff.rfl, ?_, ?_⟩
  · rintro ⟨-, x, hx, hnx⟩
    rcases Bool.eq_false_or_eq_true (setEq ((sub.answers
      (session.questions.getD i default).id).getD [])
      (session.questions.getD i default).correct) with ht | hf
    · rcases (setEq_true_iff_set_eq _ _ hnsub hncor).mp ht with ⟨-, hm⟩
      exact absurd ((hm x).mp hx) hnx
    · exact hf
  · rintro ⟨-, x, hx, hnx⟩
    rcases Bool.eq_false_or_eq_true (setEq ((sub.answers
      (session.questions.getD i default).id).getD [])
      (session.questions.getD i default).correct) with ht | hf
    · rcases (setEq_true_iff_set_eq _ _ hnsub hncor).mp ht with ⟨-, hm⟩
      exact absurd ((hm x).mpr hx) hnx
    · exact hf

/-- Witness for C2: submitting exactly the canonical set of the sample
single question scores correct. -/
theorem scoreExam_set_equality_witness :
    ((scoreExam sessionSingleSample
        { answers := fun _ => some ["o1"], pbqState := none }).scored.getD 0
      default).isCorrect = true :=
  ((scoreExam_set_equality sessionSingleSample
      { answers := fun _ => some ["o1"], pbqState := none } 0 (by decide)
      (Or.inl (by decide)) (by decide) (by decide)).1).mpr
    ⟨by decide, fun x => Iff.rfl⟩

/-- The inlined `order.every((t, i) => t === q.correct[i])` check (with its
length guard) of `scoreExam` decides positional list equality. -/
theorem orderCheck_true_iff (o c : List String) :
    (o.length == c.length && o.enum.all (fun p => c.get? p.1 == some p.2)) = true ↔
      o = c := by
  rw [Bool.and_eq_true, beq_iff_eq, List.all_eq_true]
  constructor
  · rintro ⟨hlen, hall⟩
    apply List.ext_getElem?
    intro n
    by_cases hn : n < o.length
    · have hmem : (n, o.get ⟨n, hn⟩) ∈ o.enum := by
        rw [List.mem_enum_iff_getElem?]
        simp [List.getElem?_eq_getElem hn]
      have := hall _ hmem
      rw [beq_iff_eq, List.get?_eq_getElem?] at this
      rw [List.getElem?_eq_getElem hn, this]
      rfl
    · rw [List.getElem?_eq_none (Nat.le_of_not_lt hn),
        List.getElem?_eq_none (hlen ▸ Nat.le_of_not_lt hn)]
  · rintro rfl
    refine ⟨rfl, fun p hp => ?_⟩
    rw [beq_iff_eq, List.get?_eq_getElem?]
    exact List.mem_enum_iff_getElem?.mp hp

/-- C8: for a canonical `pbq-order` question, `scoreExam` returns
`isCorrect = true` exactly when the submitted ordered step list equals the
canonical order position by position; in particular every permutation of
the canonical order other than the order itself scores `false`. -/
theorem scoreExam_order_positional (session : ExamSession) (sub : Submission) (i : ℕ)
    (hi : i < session.questions.length)
    (hty : (session.questions.getD i default).type = QuestionType.pbqOrder)
    (o : List String)
    (ho : sub.pbqState.bind
        (fun m => (m (session.questions.getD i default).id).bind (·.order)) = some o) :
    (((scoreExam session sub).scored.getD i default).isCorrect = true ↔
      o = (session.questions.getD i default).correct) ∧
    (o.Perm (session.questions.getD i default).correct ∧
        o ≠ (session.questions.getD i default).correct →
      ((scoreExam session sub).scored.getD i default).isCorrect = false) := by
  rw [scoreExam_scored_getD session sub i hi]
  have hok : questionOk sub (session.questions.getD i default) =
      (o.length == (session.questions.getD i default).correct.length &&
        o.enum.all (fun p => (session.questions.getD i default).correct.get? p.1 ==
          some p.2)) := by
    unfold questionOk
    rw [hty, ho]
  simp only [hok]
  rw [orderCheck_true_iff]
  refine ⟨Iff.rfl, ?_⟩
  rintro ⟨-, hne⟩
  rcases Bool.eq_false_or_eq_true (o.length ==
    (session.questions.getD i default).correct.length &&
    o.enum.all (fun p => (session.questions.getD i default).correct.get? p.1 ==
      some p.2)) with ht | hf
  · exact absurd ((orderCheck_true_iff _ _).mp ht) hne
  · exact hf

/-- Witness for C8: submitting the transposition of the sample two-step
canonical order scores `false`. -/
theorem scoreExam_order_positional_witness :
    ((scoreExam sessionOrderSample
        { answers := fun _ => none,
          pbqState := some (fun _ => some { order := some ["second", "first"] }) }).scored.getD 0
      default).isCorrect = false :=
  (scoreExam_order_positional sessionOrderSample
      { answers := fun _ => none,
        pbqState := some (fun _ => some { order := some ["second", "first"] }) } 0
      (by decide) (by decide) ["second", "first"] rfl).2
    ⟨by decide, by decide⟩

/-- A JS array lookup that hits yields a member of the list. -/
theorem jsGet?_mem {α : Type} {l : List α} {i : ℤ} {a : α} (h : jsGet? l i = some a) :
    a ∈ l := by
  unfold jsGet? at h
  split at h
  · exact List.getElem?_mem (List.get?_eq_getElem? l i.toNat ▸ h)
  · cases h

/-- The second component of an `enum` member is a member. -/
theorem mem_enum_snd {α : Type} {l : List α} {p : ℕ × α} (h : p ∈ l.enum) : p.2 ∈ l :=
  List.getElem?_mem (List.mem_enum_iff_getElem?.mp h)

/-- A string extended on the right keeps its prefix. -/
theorem jsStartsWith_append (pre s : String) : jsStartsWith (pre ++ s) pre = true := by
  unfold jsStartsWith
  rw [List.isPrefixOf_iff_prefix, String.data_append]
  exact List.prefix_append _ _

/-- C9 counterexample: the claim says every correct index that does not
resolve to an existing left/right entry of a `pbq-match` item is dropped
from the canonical correct-answer encoding; but a pair whose `leftIndex`
resolves while its `rightIndex` is out of range (99 against 3 right
entries) is *retained*, encoded with the literal text `undefined` on the
right-hand side. -/
theorem normalizeQuestions_keeps_unresolved_right :
    (normalizeQuestions CoreId.core1201 "s" idShuffle [rawMatchBadRight]).map (·.correct) =
        [["A=>undefined"]] ∧
      rawMatchBadRight.right.length = 3 ∧
      rawMatchBadRight.correctPairs = [{ leftIndex := 0, rightIndex := 99 }] := by
  refine ⟨?_, by decide, by decide⟩
  decide

/-- Per-item form of the normalizer guarantee (groundwork for the claim
about `normalizeQuestions`). -/
theorem normalizeItem_refs_aux (core : CoreId) (sessionId : String)
    (displayShuffle : ℕ → List OptionItem → List OptionItem) (seq : ℕ) (it : RawItem)
    (q : Question) (h : normalizeItem core sessionId displayShuffle seq it = some q) :
    ((q.type = QuestionType.single ∨ q.type = QuestionType.multi) →
      ∀ c ∈ q.correct, ∃ o ∈ q.options, o.id = c) ∧
    (q.type = QuestionType.pbqOrder → ∀ c ∈ q.correct, c ∈ it.orderItems) ∧
    (q.type = QuestionType.pbqMatch → ∀ c ∈ q.correct, ∃ l ∈ it.left,
      c = l ++ "=>" ++ "undefined" ∨ ∃ r ∈ it.right, c = l ++ "=>" ++ r) := by
  unfold normalizeItem at h
  dsimp only at h
  by_cases h1 : it.type = "single" ∨ it.type = "multi"
  case pos =>
    rw [if_pos h1, Option.some.injEq] at h
    subst h
    refine ⟨fun _ c hc => ?_, fun hty => ?_, fun hty => ?_⟩
    · rcases List.mem_filterMap.mp hc with ⟨i, -, hsome⟩
      rcases Option.map_eq_some.mp hsome with ⟨o, hget, hid⟩
      exact ⟨o, jsGet?_mem hget, hid⟩
    · dsimp only at hty
      split_ifs at hty
    · dsimp only at hty
      split_ifs at hty
  rw [if_neg h1] at h
  by_cases h2 : it.type = "pbq-order"
  case pos =>
    rw [if_pos h2, Option.some.injEq] at h
    subst h
    refine ⟨fun hty => ?_, fun _ c hc => ?_, fun hty => ?_⟩
    · rcases hty with hty | hty <;> cases hty
    · rcases List.mem_filterMap.mp hc with ⟨i, -, hsome⟩
      rcases Option.map_eq_some.mp hsome with ⟨o, hget, htext⟩
      have ho := jsGet?_mem hget
      rcases List.mem_map.mp ho with ⟨p, hp, hpo⟩
      subst htext
      rw [← hpo]
      exact mem_enum_snd hp
    · cases hty
  rw [if_neg h2] at h
  by_cases h3 : it.type = "pbq-match"
  case neg => rw [if_neg h3] at h; cases h
  case pos =>
    rw [if_pos h3, Option.some.injEq] at h
    subst h
    refine ⟨fun hty => ?_, fun hty => ?_, fun _ c hc => ?_⟩
    · rcases hty with hty | hty <;> cases hty
    · cases hty
    · rcases List.mem_filter.mp hc with ⟨hmem, hpred⟩
      rcases List.mem_map.mp hmem with ⟨p, -, hpc⟩
      rcases hL : jsGet? (it.left.enum.map (fun p =>
          ({ id := "l" ++ toString (p.1 + 1), text := p.2 } : OptionItem))) p.leftIndex with
        _ | lentry
      · exfalso
        rw [← hpc, hL] at hpred
        rw [show jsTemplateText none = "undefined" from rfl, String.append_assoc,
          jsStartsWith_append] at hpred
        simp at hpred
      · have hltext : lentry.text ∈ it.left := by
          rcases List.mem_map.mp (jsGet?_mem hL) with ⟨pp, hpp, hppo⟩
          rw [← hppo]
          exact mem_enum_snd hpp
        refine ⟨lentry.text, hltext, ?_⟩
        rcases hR : jsGet? (it.right.enum.map (fun p =>
            ({ id := "r" ++ toString (p.1 + 1), text := p.2 } : OptionItem))) p.rightIndex with
          _ | rentry
        · left
          rw [← hpc, hL, hR]
          rfl
        · right
          have hrtext : rentry.text ∈ it.right := by
            rcases List.mem_map.mp (jsGet?_mem hR) with ⟨pp, hpp, hppo⟩
            rw [← hppo]
            exact mem_enum_snd hpp
          refine ⟨rentry.text, hrtext, ?_⟩
          rw [← hpc, hL, hR]
          rfl

/-- C9 (amended): the normalizer is total on shape-conforming raw items
and drops unresolved indices except on the right-hand side of a
`pbq-match` pair: every question produced by `normalizeQuestions` comes
from some input item such that every canonical correct entry of a
`single`/`multi` question is the id of an existing option; every
canonical correct entry of a `pbq-order` question is the text of one of
the item's order entries; and every canonical correct entry of a
`pbq-match` question is built from an existing left text, paired either
with an existing right text or — when the pair's `rightIndex` does not
resolve — with the literal text `undefined`. -/
theorem normalizeQuestions_correct_refs (core : CoreId) (sessionId : String)
    (displayShuffle : ℕ → List OptionItem → List OptionItem) (items : List RawItem)
    (q : Question) (hq : q ∈ normalizeQuestions core sessionId displayShuffle items) :
    ∃ it ∈ items,
      ((q.type = QuestionType.single ∨ q.type = QuestionType.multi) →
        ∀ c ∈ q.correct, ∃ o ∈ q.options, o.id = c) ∧
      (q.type = QuestionType.pbqOrder → ∀ c ∈ q.correct, c ∈ it.orderItems) ∧
      (q.type = QuestionType.pbqMatch → ∀ c ∈ q.correct, ∃ l ∈ it.left,
        c = l ++ "=>" ++ "undefined" ∨ ∃ r ∈ it.right, c = l ++ "=>" ++ r) := by
  rcases List.mem_filterMap.mp hq with ⟨p, hp, hsome⟩
  exact ⟨p.2, mem_enum_snd hp,
    normalizeItem_refs_aux core sessionId displayShuffle (p.1 + 1) p.2 q hsome⟩

/-- Witness for C9's amended theorem at the sample single item: the
canonical correct entry `"o1"` of the normalized question is the id of one
of its options. -/
theorem normalizeQuestions_correct_refs_witness :
    ∃ it ∈ [rawSingleSample],
      ((qNormSample.type = QuestionType.single ∨ qNormSample.type = QuestionType.multi) →
        ∀ c ∈ qNormSample.correct, ∃ o ∈ qNormSample.options, o.id = c) ∧
      (qNormSample.type = QuestionType.pbqOrder →
        ∀ c ∈ qNormSample.correct, c ∈ it.orderItems) ∧
      (qNormSample.type = QuestionType.pbqMatch →
        ∀ c ∈ qNormSample.correct, ∃ l ∈ it.left,
          c = l ++ "=>" ++ "undefined" ∨ ∃ r ∈ it.right, c = l ++ "=>" ++ r) :=
  normalizeQuestions_correct_refs CoreId.core1201 "s" idShuffle [rawSingleSample]
    qNormSample (by decide)

/-- C4: on a validation failure of a backend batch response, `callOpenAI`
re-issues the same batch exactly once, with the failure reason appended to
the system instructions; if the retry also fails validation, the call
fails with an error carrying the last validation message, and no further
attempt is made (the result is fully determined by the two responses). -/
theorem callOpenAI_retries_once (backend : Backend) (items : List QuestionPlanItem)
    (difficulty : Difficulty) (p0 p1 : Except String Json) (e0 e1 : String)
    (h0 : backend (attemptSystem (baseSystem items) none) (userPayload items difficulty) =
      FetchResult.ok p0)
    (hv0 : p0.bind (fun obj => validateBatch items obj) = Except.error e0)
    (h1 : backend (attemptSystem (baseSystem items) (some e0)) (userPayload items difficulty) =
      FetchResult.ok p1)
    (hv1 : p1.bind (fun obj => validateBatch items obj) = Except.error e1) :
    callOpenAI backend items difficulty =
      Except.error ("Model returned invalid JSON after retries: " ++ e1) ∧
    attemptSystem (baseSystem items) (some e0) =
      baseSystem items ++ ["", "Your previous output was invalid.",
        "Fix the JSON and re-output per contract. Error: " ++ e0.take 500] := by
  constructor
  · unfold callOpenAI callAttempt
    rw [h0]
    dsimp only
    rw [hv0]
    dsimp only
    rw [h1]
    dsimp only
    rw [hv1]
  · rfl

/-- Witness for C4: a one-item batch answered both times with
`{"items": []}` (length off by one) fails after exactly one retry with the
last length-validation message. -/
theorem callOpenAI_retries_once_witness :
    callOpenAI backendEmptyItems [planItemSample] Difficulty.medium =
      Except.error ("Model returned invalid JSON after retries: " ++
        "\'items\' length 0 !== expected 1.") :=
  (callOpenAI_retries_once backendEmptyItems [planItemSample] Difficulty.medium
      (Except.ok (Json.obj [("items", Json.arr [])]))
      (Except.ok (Json.obj [("items", Json.arr [])]))
      "\'items\' length 0 !== expected 1." "\'items\' length 0 !== expected 1."
      rfl (by rfl) rfl (by rfl)).1

/-! ### Allocator groundwork for C1 -/

theorem allocRaw_length (total : ℕ) (bp : List DomainBlueprint) :
    (allocRaw total bp).length = bp.length := by
  simp [allocRaw]

theorem allocRaw_map_key (total : ℕ) (bp : List DomainBlueprint) :
    (allocRaw total bp).map (·.key) = bp.map (·.domainNumber) := by
  unfold allocRaw
  rw [List.map_map]
  have : ((fun r : RawEntry => r.key) ∘ fun p : ℕ × DomainBlueprint =>
      ({ key := p.2.domainNumber, exact := allocExact total bp p.2,
         flr := allocFloor total bp p.2, idx := p.1 } : RawEntry)) =
      (fun d : DomainBlueprint => d.domainNumber) ∘ Prod.snd := rfl
  rw [this, ← List.map_map, List.enum_map_snd]

theorem allocRaw_map_flr (total : ℕ) (bp : List DomainBlueprint) :
    (allocRaw total bp).map (·.flr) = bp.map (allocFloor total bp) := by
  unfold allocRaw
  rw [List.map_map]
  have : ((fun r : RawEntry => r.flr) ∘ fun p : ℕ × DomainBlueprint =>
      ({ key := p.2.domainNumber, exact := allocExact total bp p.2,
         flr := allocFloor total bp p.2, idx := p.1 } : RawEntry)) =
      (allocFloor total bp) ∘ Prod.snd := rfl
  rw [this, ← List.map_map, List.enum_map_snd]

theorem allocRaw_getElem (total : ℕ) (bp : List DomainBlueprint) (i : ℕ)
    (hi : i < bp.length) :
    (allocRaw total bp).get ⟨i, by rw [allocRaw_length]; exact hi⟩ =
      { key := (bp.get ⟨i, hi⟩).domainNumber
        exact := allocExact total bp (bp.get ⟨i, hi⟩)
        flr := allocFloor total bp (bp.get ⟨i, hi⟩)
        idx := i } := by
  simp [allocRaw]

theorem allocFrac_nonneg (total : ℕ) (bp : List DomainBlueprint) (d : DomainBlueprint) :
    0 ≤ allocFrac total bp d :=
  Int.fract_nonneg (allocExact total bp d)

theorem allocFrac_lt_one (total : ℕ) (bp : List DomainBlueprint) (d : DomainBlueprint) :
    allocFrac total bp d < 1 :=
  Int.fract_lt_one (allocExact total bp d)

theorem allocExact_nonneg (total : ℕ) (bp : List DomainBlueprint) (d : DomainBlueprint) :
    0 ≤ allocExact total bp d := by
  unfold allocExact
  positivity

theorem allocFloor_nonneg (total : ℕ) (bp : List DomainBlueprint) (d : DomainBlueprint) :
    0 ≤ allocFloor total bp d :=
  Int.floor_nonneg.mpr (allocExact_nonneg total bp d)

/-- Sum of a pointwise difference over a list of rationals. -/
theorem list_sum_map_sub {α : Type} (l : List α) (f g : α → ℚ) :
    (l.map (fun x => f x - g x)).sum = (l.map f).sum - (l.map g).sum := by
  induction l with
  | nil => simp
  | cons a t ih => simp [ih]; ring

/-- A non-empty list of positive weights has positive sum. -/
theorem allocWsum_pos (bp : List DomainBlueprint) (hne : bp ≠ [])
    (hw : ∀ d ∈ bp, 0 < d.weight) : 0 < allocWsum bp := by
  rcases bp with _ | ⟨a, t⟩
  · exact absurd rfl hne
  · have := hw a (List.mem_cons_self a t)
    unfold allocWsum
    simp only [List.map_cons, List.sum_cons]
    omega

/-- The exact shares sum to the total when the weight sum is non-zero. -/
theorem allocExact_sum (total : ℕ) (bp : List DomainBlueprint)
    (hz : (allocWsum bp : ℚ) ≠ 0) :
    (bp.map (allocExact total bp)).sum = (total : ℚ) := by
  have h1 : bp.map (allocExact total bp) =
      bp.map (fun d => (d.weight : ℚ) * ((total : ℚ) / (allocWsum bp : ℚ))) := by
    apply List.map_congr_left
    intro d _
    unfold allocExact
    field_simp
  rw [h1, List.sum_map_mul_right]
  have h2 : (bp.map (fun d => (d.weight : ℚ))).sum = (allocWsum bp : ℚ) := by
    unfold allocWsum
    rw [Nat.cast_list_sum, List.map_map]
    rfl
  rw [h2]
  field_simp

/-- A list of rationals each below 1 has sum below its length, once it is
non-empty. -/
theorem list_sum_lt_length (l : List ℚ) (hne : l ≠ []) (h : ∀ x ∈ l, x < 1) :
    l.sum < l.length := by
  induction l with
  | nil => exact absurd rfl hne
  | cons a t ih =>
      have ha := h a (List.mem_cons_self a t)
      have ht : t.sum ≤ t.length := by
        calc t.sum ≤ t.length • (1 : ℚ) :=
              List.sum_le_card_nsmul t 1 (fun x hx => le_of_lt (h x (List.mem_cons_of_mem a hx)))
          _ = t.length := by simp
      simp only [List.sum_cons, List.length_cons]
      push_cast
      linarith

/-- `0 ≤ remaining < |blueprint|` for a non-empty positive-weight
blueprint. -/
theorem allocRemaining_bounds (total : ℕ) (bp : List DomainBlueprint) (hne : bp ≠ [])
    (hw : ∀ d ∈ bp, 0 < d.weight) :
    0 ≤ allocRemaining total bp ∧ allocRemaining total bp < bp.length := by
  have hwsum := allocWsum_pos bp hne hw
  have hzq : (allocWsum bp : ℚ) ≠ 0 := by exact_mod_cast Nat.pos_iff_ne_zero.mp hwsum
  have hused : (allocUsed total bp : ℚ) = (bp.map (fun d => (allocFloor total bp d : ℚ))).sum := by
    unfold allocUsed
    rw [allocRaw_map_flr, Int.cast_list_sum, List.map_map]
    rfl
  have hfrac : (bp.map (allocFrac total bp)).sum =
      (allocRemaining total bp : ℚ) := by
    unfold allocFrac
    rw [list_sum_map_sub, allocExact_sum total bp hzq]
    unfold allocRemaining
    rw [Int.cast_sub, Int.cast_natCast, hused]
  constructor
  · have h0 : (0 : ℚ) ≤ (allocRemaining total bp : ℚ) := by
      rw [← hfrac]
      apply List.sum_nonneg
      intro x hx
      rcases List.mem_map.mp hx with ⟨d, -, rfl⟩
      exact allocFrac_nonneg total bp d
    exact_mod_cast h0
  · have hlt : (allocRemaining total bp : ℚ) < ((bp.length : ℤ) : ℚ) := by
      rw [← hfrac]
      have := list_sum_lt_length (bp.map (allocFrac total bp))
        (by simpa using hne)
        (by
          intro x hx
          rcases List.mem_map.mp hx with ⟨d, -, rfl⟩
          exact allocFrac_lt_one total bp d)
      simpa using this
    exact_mod_cast hlt

/-- The base loop writes each key its floor (keys distinct): a key not in
the list is untouched. -/
theorem baseFold_not_mem (l : List RawEntry) (f : String → ℤ) (k : String)
    (hk : k ∉ l.map (·.key)) :
    (l.foldl (fun f r => Function.update f r.key r.flr) f) k = f k := by
  induction l generalizing f with
  | nil => rfl
  | cons a t ih =>
      simp only [List.map_cons, List.mem_cons] at hk
      push_neg at hk
      rw [List.foldl_cons, ih _ hk.2, Function.update_noteq hk.1]

/-- The base loop gives each entry of a duplicate-free-key list its
floor. -/
theorem baseFold_apply (l : List RawEntry) (hnd : (l.map (·.key)).Nodup)
    (f : String → ℤ) (r : RawEntry) (hr : r ∈ l) :
    (l.foldl (fun f r => Function.update f r.key r.flr) f) r.key = r.flr := by
  induction l generalizing f with
  | nil => cases hr
  | cons a t ih =>
      rw [List.map_cons, List.nodup_cons] at hnd
      rcases List.mem_cons.mp hr with rfl | hrt
      · rw [List.foldl_cons, baseFold_not_mem t _ _ hnd.1, Function.update_same]
      · exact ih hnd.2 _ hrt

/-- The distribution loop: after `m ≤ |ks|` iterations over a
duplicate-free-key list, a key holds its base value plus one exactly when
it is among the first `m` sorted keys. -/
theorem bumpFold_apply (ks : List RawEntry) (m : ℕ) (hm : m ≤ ks.length)
    (hnd : (ks.map (·.key)).Nodup) (f0 : String → ℤ) (k : String) :
    ((List.range m).foldl
      (fun f i =>
        Function.update f (ks.getD (i % ks.length) default).key
          (f (ks.getD (i % ks.length) default).key + 1)) f0) k =
      f0 k + (if k ∈ (ks.take m).map (·.key) then 1 else 0) := by
  induction m with
  | zero => simp
  | succ m ih =>
      have hm' : m ≤ ks.length := Nat.le_of_succ_le hm
      have hmlt : m < ks.length := Nat.lt_of_succ_le hm
      rw [List.range_succ, List.foldl_append, List.foldl_cons, List.foldl_nil]
      have hmod : m % ks.length = m := Nat.mod_eq_of_lt hmlt
      have hgetD : ks.getD m default = ks.get ⟨m, hmlt⟩ := List.getD_eq_getElem ks default hmlt
      have htake : ks.take (m + 1) = ks.take m ++ [ks.get ⟨m, hmlt⟩] := by
        rw [List.take_succ, List.getElem?_eq_getElem hmlt]
        rfl
      have hnotin : (ks.get ⟨m, hmlt⟩).key ∉ (ks.take m).map (·.key) := by
        have hsub : ((ks.take (m + 1)).map (·.key)).Nodup :=
          ((List.take_sublist (m + 1) ks).map (·.key)).nodup hnd
        rw [htake, List.map_append] at hsub
        rcases List.nodup_append.mp hsub with ⟨-, -, hdisj⟩
        intro hmem
        exact hdisj hmem (by simp)
      rw [hmod, hgetD]
      by_cases hk : k = (ks.get ⟨m, hmlt⟩).key
      · subst hk
        rw [Function.update_same, ih hm', if_neg hnotin, htake, List.map_append,
          if_pos (by simp)]
        ring
      · rw [Function.update_noteq hk, ih hm', htake, List.map_append]
        congr 1
        have hmem : k ∈ (ks.take m).map (·.key) ↔
            k ∈ (ks.take m).map (·.key) ++ [ks.get ⟨m, hmlt⟩].map (·.key) := by
          simp only [List.map_cons, List.map_nil, List.mem_append, List.mem_singleton]
          constructor
          · exact Or.inl
          · rintro (h | h)
            · exact h
            · exact absurd h hk
        exact if_congr hmem rfl rfl

/-- Summing an indicator over keys counts the keys passing it. -/
theorem indicator_sum_filter (keys S : List String) :
    (keys.map (fun k => if k ∈ S then (1 : ℤ) else 0)).sum =
      ((keys.filter (fun k => k ∈ S)).length : ℤ) := by
  induction keys with
  | nil => simp
  | cons a t ih =>
      by_cases ha : a ∈ S <;> simp [List.filter_cons, ha, ih] <;> omega

/-- Summing an indicator of a duplicate-free sub-collection over
duplicate-free keys counts the sub-collection. -/
theorem indicator_sum (keys S : List String) (hk : keys.Nodup) (hS : S.Nodup)
    (hsub : ∀ x ∈ S, x ∈ keys) :
    (keys.map (fun k => if k ∈ S then (1 : ℤ) else 0)).sum = S.length := by
  rw [indicator_sum_filter]
  have hperm : List.Perm (keys.filter (fun k => k ∈ S)) S := by
    apply (List.perm_ext_iff_of_nodup (hk.filter (fun k => decide (k ∈ S))) hS).mpr
    intro x
    rw [List.mem_filter]
    constructor
    · rintro ⟨-, hx⟩
      simpa using hx
    · intro hx
      exact ⟨hsub x hx, by simpa using hx⟩
  rw [hperm.length_eq]

/-- A pair sublist pins down two ordered positions. -/
theorem pair_sublist_positions {α : Type} {a b : α} {l : List α}
    (h : List.Sublist [a, b] l) :
    ∃ p q, ∃ (hp : p < l.length) (hq : q < l.length),
      p < q ∧ l.get ⟨p, hp⟩ = a ∧ l.get ⟨q, hq⟩ = b := by
  induction l with
  | nil => cases h
  | cons x t ih =>
      cases h with
      | cons _ htail =>
          rcases ih htail with ⟨p, q, hp, hq, hpq, ha, hb⟩
          exact ⟨p + 1, q + 1, (by simpa using hp), (by simpa using hq),
            (by omega), ha, hb⟩
      | cons₂ _ htail =>
          have hb : b ∈ t := (List.singleton_sublist.mp htail)
          rcases List.mem_iff_get.mp hb with ⟨⟨q, hq⟩, hbq⟩
          exact ⟨0, q + 1, (by simp), (by simpa using hq), (by omega), rfl, hbq⟩

/-- A member of `take m` sits at a position below `m`. -/
theorem mem_take_positions {α : Type} {a : α} {l : List α} {m : ℕ}
    (h : a ∈ l.take m) :
    ∃ p, ∃ (hp : p < l.length), p < m ∧ l.get ⟨p, hp⟩ = a := by
  rcases List.mem_iff_get.mp h with ⟨⟨p, hp⟩, hpa⟩
  have hp' : p < l.length := by rw [List.length_take] at hp; omega
  have hpm : p < m := by rw [List.length_take] at hp; omega
  refine ⟨p, hp', hpm, ?_⟩
  rw [← hpa]
  simp [List.getElem_take]

/-- A member of `drop m` sits at a position at or above `m`. -/
theorem mem_drop_positions {α : Type} {a : α} {l : List α} {m : ℕ}
    (h : a ∈ l.drop m) :
    ∃ p, ∃ (hp : p < l.length), m ≤ p ∧ l.get ⟨p, hp⟩ = a := by
  rcases List.mem_iff_get.mp h with ⟨⟨p, hp⟩, hpa⟩
  have hp' : m + p < l.length := by
    have := hp
    rw [List.length_drop] at this
    omega
  refine ⟨m + p, hp', by omega, ?_⟩
  rw [← hpa]
  simp [List.getElem_drop]

/-- A position below `m` yields a member of `take m`. -/
theorem position_mem_take {α : Type} {l : List α} {m p : ℕ} (hp : p < l.length)
    (hpm : p < m) : l.get ⟨p, hp⟩ ∈ l.take m := by
  rw [List.mem_iff_get]
  refine ⟨⟨p, ?_⟩, ?_⟩
  · simp [List.length_take]
    omega
  · simp [List.getElem_take]

/-- Sum of a pointwise sum over a list of integers. -/
theorem list_sum_map_add {α : Type} (l : List α) (f g : α → ℤ) :
    (l.map (fun x => f x + g x)).sum = (l.map f).sum + (l.map g).sum := by
  induction l with
  | nil => simp
  | cons a t ih => simp [ih]; ring

/-- Two positions in order give a pair sublist. -/
theorem positions_pair_sublist {α : Type} (l : List α) (i j : ℕ)
    (hi : i < l.length) (hj : j < l.length) (hij : i < j) :
    List.Sublist [l.get ⟨i, hi⟩, l.get ⟨j, hj⟩] l := by
  have hsplit : l.take j ++ l.drop j = l := List.take_append_drop j l
  have hdrop : l.drop j = l.get ⟨j, hj⟩ :: l.drop (j + 1) := List.drop_eq_get_cons hj
  have h1 : List.Sublist [l.get ⟨i, hi⟩] (l.take j) :=
    List.singleton_sublist.mpr (position_mem_take hi hij)
  have h2 : List.Sublist [l.get ⟨j, hj⟩] (l.drop j) := by
    rw [hdrop]
    exact (List.nil_sublist _).cons₂ _
  have := h1.append h2
  rwa [hsplit] at this

/-- The full largest-remainder specification of the allocator counts
(shared groundwork for the allocator and plan-builder claims). -/
theorem allocCountsFun_spec (total : ℕ) (bp : List DomainBlueprint)
    (hne : bp ≠ []) (hw : ∀ d ∈ bp, 0 < d.weight)
    (hnd : (bp.map (·.domainNumber)).Nodup) :
    ∃ counts : String → ℤ,
      allocateByWeight total bp = AllocResult.ok counts ∧
      (∀ d ∈ bp, 0 ≤ counts d.domainNumber) ∧
      (bp.map (fun d => counts d.domainNumber)).sum = (total : ℤ) ∧
      (∀ d ∈ bp, counts d.domainNumber = allocFloor total bp d ∨
        counts d.domainNumber = allocFloor total bp d + 1) ∧
      (∀ i j, ∀ (hi : i < bp.length) (hj : j < bp.length),
        counts (bp.get ⟨i, hi⟩).domainNumber = allocFloor total bp (bp.get ⟨i, hi⟩) + 1 →
        counts (bp.get ⟨j, hj⟩).domainNumber = allocFloor total bp (bp.get ⟨j, hj⟩) →
        allocFrac total bp (bp.get ⟨j, hj⟩) < allocFrac total bp (bp.get ⟨i, hi⟩) ∨
          (allocFrac total bp (bp.get ⟨j, hj⟩) = allocFrac total bp (bp.get ⟨i, hi⟩) ∧
            i < j)) := by
  have hwsum : 0 < allocWsum bp := allocWsum_pos bp hne hw
  obtain ⟨h0le, hltn⟩ := allocRemaining_bounds total bp hne hw
  have hByLen : (allocByRemainder total bp).length = bp.length := by
    rw [allocByRemainder, List.length_insertionSort, allocRaw_length]
  have hmlt : (allocRemaining total bp).toNat < bp.length := by omega
  have hmlen : (allocRemaining total bp).toNat ≤ (allocByRemainder total bp).length := by
    omega
  have hRawKeys : ((allocRaw total bp).map (·.key)).Nodup := by
    rw [allocRaw_map_key]
    exact hnd
  have hPermRaw : List.Perm (allocByRemainder total bp) (allocRaw total bp) :=
    List.perm_insertionSort remDescRel (allocRaw total bp)
  have hndByKeys : ((allocByRemainder total bp).map (·.key)).Nodup :=
    ((hPermRaw.map (·.key)).nodup_iff).mpr hRawKeys
  have hndBy : (allocByRemainder total bp).Nodup := List.Nodup.of_map _ hndByKeys
  have hsorted : List.Pairwise remDescRel (allocByRemainder total bp) :=
    List.sorted_insertionSort remDescRel (allocRaw total bp)
  have hcounts : ∀ k, allocCountsFun total bp k =
      allocBase total bp k +
        (if k ∈ ((allocByRemainder total bp).take
          (allocRemaining total bp).toNat).map (·.key) then 1 else 0) := by
    intro k
    unfold allocCountsFun
    exact bumpFold_apply (allocByRemainder total bp) (allocRemaining total bp).toNat
      hmlen hndByKeys (allocBase total bp) k
  have hbase : ∀ i, ∀ (hi : i < bp.length),
      allocBase total bp (bp.get ⟨i, hi⟩).domainNumber =
        allocFloor total bp (bp.get ⟨i, hi⟩) := by
    intro i hi
    have hi' : i < (allocRaw total bp).length := by rw [allocRaw_length]; exact hi
    have hr : (allocRaw total bp).get ⟨i, hi'⟩ ∈ allocRaw total bp := List.get_mem _ _ _
    have := baseFold_apply (allocRaw total bp) hRawKeys (fun _ => 0) _ hr
    rwa [allocRaw_getElem total bp i hi] at this
  have hmemraw : ∀ i, ∀ (hi : i < bp.length),
      ({ key := (bp.get ⟨i, hi⟩).domainNumber
         exact := allocExact total bp (bp.get ⟨i, hi⟩)
         flr := allocFloor total bp (bp.get ⟨i, hi⟩)
         idx := i } : RawEntry) ∈ allocByRemainder total bp := by
    intro i hi
    have hi' : i < (allocRaw total bp).length := by rw [allocRaw_length]; exact hi
    rw [← allocRaw_getElem total bp i hi]
    exact hPermRaw.mem_iff.mpr (List.get_mem _ _ _)
  have hcd : ∀ i, ∀ (hi : i < bp.length),
      allocCountsFun total bp (bp.get ⟨i, hi⟩).domainNumber =
        allocFloor total bp (bp.get ⟨i, hi⟩) +
          (if (bp.get ⟨i, hi⟩).domainNumber ∈ ((allocByRemainder total bp).take
            (allocRemaining total bp).toNat).map (·.key) then 1 else 0) := by
    intro i hi
    rw [hcounts, hbase i hi]
  refine ⟨allocCountsFun total bp, ?_, ?_, ?_, ?_, ?_⟩
  · unfold allocateByWeight
    rw [if_neg (by
      rintro ⟨-, h0⟩
      omega), if_neg (by
      rintro ⟨h0, -⟩
      rw [hByLen] at h0
      exact hne (List.length_eq_zero.mp h0))]
  · intro d hd
    obtain ⟨⟨i, hi⟩, rfl⟩ := List.mem_iff_get.mp hd
    rw [hcd i hi]
    have := allocFloor_nonneg total bp (bp.get ⟨i, hi⟩)
    split <;> omega
  · have hmapeq : bp.map (fun d => allocCountsFun total bp d.domainNumber) =
        bp.map (fun d => allocFloor total bp d +
          (if d.domainNumber ∈ ((allocByRemainder total bp).take
            (allocRemaining total bp).toNat).map (·.key) then 1 else 0)) := by
      apply List.map_congr_left
      intro d hd
      obtain ⟨⟨i, hi⟩, rfl⟩ := List.mem_iff_get.mp hd
      exact hcd i hi
    rw [hmapeq, list_sum_map_add]
    have hfl : (bp.map (allocFloor total bp)).sum = allocUsed total bp := by
      rw [allocUsed, allocRaw_map_flr]
    have hSnodup : (((allocByRemainder total bp).take
        (allocRemaining total bp).toNat).map (·.key)).Nodup :=
      ((List.take_sublist (allocRemaining total bp).toNat
        (allocByRemainder total bp)).map (fun r : RawEntry => r.key)).nodup hndByKeys
    have hSsub : ∀ x ∈ ((allocByRemainder total bp).take
        (allocRemaining total bp).toNat).map (·.key), x ∈ bp.map (·.domainNumber) := by
      intro x hx
      rcases List.mem_map.mp hx with ⟨e, he, rfl⟩
      have : e ∈ allocByRemainder total bp := List.mem_of_mem_take he
      have : e.key ∈ (allocRaw total bp).map (·.key) :=
        List.mem_map.mpr ⟨e, hPermRaw.mem_iff.mp this, rfl⟩
      rwa [allocRaw_map_key] at this
    have hSlen : (((allocByRemainder total bp).take
        (allocRemaining total bp).toNat).map (·.key)).length =
        (allocRemaining total bp).toNat := by
      rw [List.length_map, List.length_take]
      omega
    have hind : (bp.map (fun d =>
        if d.domainNumber ∈ ((allocByRemainder total bp).take
          (allocRemaining total bp).toNat).map (·.key) then (1 : ℤ) else 0)).sum =
        ((allocRemaining total bp).toNat : ℤ) := by
      have his := indicator_sum (bp.map (·.domainNumber))
        (((allocByRemainder total bp).take (allocRemaining total bp).toNat).map (·.key))
        hnd hSnodup hSsub
      rw [hSlen] at his
      have hmm : bp.map (fun d =>
          if d.domainNumber ∈ ((allocByRemainder total bp).take
            (allocRemaining total bp).toNat).map (·.key) then (1 : ℤ) else 0) =
          (bp.map (·.domainNumber)).map (fun k =>
            if k ∈ ((allocByRemainder total bp).take
              (allocRemaining total bp).toNat).map (·.key) then (1 : ℤ) else 0) := by
        rw [List.map_map]
        rfl
      rw [hmm, his]
    rw [hfl, hind]
    unfold allocRemaining at h0le ⊢
    omega
  · intro d hd
    obtain ⟨⟨i, hi⟩, rfl⟩ := List.mem_iff_get.mp hd
    rw [hcd i hi]
    split
    · right; rfl
    · left; omega
  · intro i j hi hj hbump hnot
    rw [hcd i hi] at hbump
    rw [hcd j hj] at hnot
    have hmemS : (bp.get ⟨i, hi⟩).domainNumber ∈ ((allocByRemainder total bp).take
        (allocRemaining total bp).toNat).map (·.key) := by
      by_contra hmem
      rw [if_neg hmem] at hbump
      omega
    have hnotS : (bp.get ⟨j, hj⟩).domainNumber ∉ ((allocByRemainder total bp).take
        (allocRemaining total bp).toNat).map (·.key) := by
      intro hmem
      rw [if_pos hmem] at hnot
      omega
    -- the raw entries of positions i and j
    have hri : ({ key := (bp.get ⟨i, hi⟩).domainNumber
                  exact := allocExact total bp (bp.get ⟨i, hi⟩)
                  flr := allocFloor total bp (bp.get ⟨i, hi⟩)
                  idx := i } : RawEntry) ∈ allocByRemainder total bp := hmemraw i hi
    have hrj : ({ key := (bp.get ⟨j, hj⟩).domainNumber
                  exact := allocExact total bp (bp.get ⟨j, hj⟩)
                  flr := allocFloor total bp (bp.get ⟨j, hj⟩)
                  idx := j } : RawEntry) ∈ allocByRemainder total bp := hmemraw j hj
    -- the bumped entry lies in the taken prefix
    have hritake : ({ key := (bp.get ⟨i, hi⟩).domainNumber
                      exact := allocExact total bp (bp.get ⟨i, hi⟩)
                      flr := allocFloor total bp (bp.get ⟨i, hi⟩)
                      idx := i } : RawEntry) ∈ (allocByRemainder total bp).take
          (allocRemaining total bp).toNat := by
      rcases List.mem_map.mp hmemS with ⟨e, he, hek⟩
      have heq := List.inj_on_of_nodup_map hndByKeys (List.mem_of_mem_take he) hri hek
      rwa [← heq]
    have hrjdrop : ({ key := (bp.get ⟨j, hj⟩).domainNumber
                      exact := allocExact total bp (bp.get ⟨j, hj⟩)
                      flr := allocFloor total bp (bp.get ⟨j, hj⟩)
                      idx := j } : RawEntry) ∈ (allocByRemainder total bp).drop
          (allocRemaining total bp).toNat := by
      have hsplit := List.take_append_drop (allocRemaining total bp).toNat
        (allocByRemainder total bp)
      rcases List.mem_append.mp (by rw [hsplit]; exact hrj) with hin | hin
      · exact absurd (List.mem_map.mpr ⟨_, hin, rfl⟩) hnotS
      · exact hin
    have hrel := List.Sorted.rel_of_mem_take_of_mem_drop hsorted hritake hrjdrop
    -- `remDescRel r_i r_j` unfolds to `frac j ≤ frac i`
    have hle : allocFrac total bp (bp.get ⟨j, hj⟩) ≤ allocFrac total bp (bp.get ⟨i, hi⟩) :=
      hrel
    rcases lt_or_eq_of_le hle with hlt | heq
    · exact Or.inl hlt
    · refine Or.inr ⟨heq, ?_⟩
      by_contra hij
      have hne2 : i ≠ j := by
        intro h2
        subst h2
        exact hnotS hmemS
      have hji : j < i := by omega
      -- stability: the input pair [r_j, r_i] is sorted for the comparator
      -- (equal remainders), hence still a pair sublist of byRemainder
      have hi' : i < (allocRaw total bp).length := by rw [allocRaw_length]; exact hi
      have hj' : j < (allocRaw total bp).length := by rw [allocRaw_length]; exact hj
      have hpair : List.Sublist
          [(allocRaw total bp).get ⟨j, hj'⟩, (allocRaw total bp).get ⟨i, hi'⟩]
          (allocRaw total bp) :=
        positions_pair_sublist (allocRaw total bp) j i hj' hi' hji
      rw [allocRaw_getElem total bp j hj, allocRaw_getElem total bp i hi] at hpair
      have hrel2 : remDescRel
          ({ key := (bp.get ⟨j, hj⟩).domainNumber
             exact := allocExact total bp (bp.get ⟨j, hj⟩)
             flr := allocFloor total bp (bp.get ⟨j, hj⟩)
             idx := j } : RawEntry)
          ({ key := (bp.get ⟨i, hi⟩).domainNumber
             exact := allocExact total bp (bp.get ⟨i, hi⟩)
             flr := allocFloor total bp (bp.get ⟨i, hi⟩)
             idx := i } : RawEntry) := le_of_eq heq.symm
      have hpairsorted : List.Sublist
          [({ key := (bp.get ⟨j, hj⟩).domainNumber
              exact := allocExact total bp (bp.get ⟨j, hj⟩)
              flr := allocFloor total bp (bp.get ⟨j, hj⟩)
              idx := j } : RawEntry),
           ({ key := (bp.get ⟨i, hi⟩).domainNumber
              exact := allocExact total bp (bp.get ⟨i, hi⟩)
              flr := allocFloor total bp (bp.get ⟨i, hi⟩)
              idx := i } : RawEntry)] (allocByRemainder total bp) :=
        List.pair_sublist_insertionSort hrel2 hpair
      rcases pair_sublist_positions hpairsorted with ⟨p, q, hp, hq, hpq, hpj, hqi⟩
      -- the taken/dropped positions of the two entries
      rcases mem_take_positions hritake with ⟨pi, hpi, hpim, hpival⟩
      rcases mem_drop_positions hrjdrop with ⟨qj, hqj, hqjm, hqjval⟩
      have hinj := List.nodup_iff_injective_get.mp hndBy
      have hqpi : q = pi := by
        have h := hinj (show (allocByRemainder total bp).get ⟨q, hq⟩ =
          (allocByRemainder total bp).get ⟨pi, hpi⟩ by rw [hqi, hpival])
        exact congrArg Fin.val h
      have hpqj : p = qj := by
        have h := hinj (show (allocByRemainder total bp).get ⟨p, hp⟩ =
          (allocByRemainder total bp).get ⟨qj, hqj⟩ by rw [hpj, hqjval])
        exact congrArg Fin.val h
      omega

/-- C1: for every blueprint with distinct domain keys, a non-empty list of
positive weights, and every non-negative total `T`, `allocateByWeight`
returns a counts record whose values are non-negative integers summing
exactly to `T`; each key receives `floor(T * weight / Σweight)` or that
floor plus one; and the extra units go to the keys of largest fractional
remainder, ties broken by original blueprint order (a bumped key never has
a smaller remainder than an unbumped one, and on equal remainders the
bumped key comes first in the input). -/
theorem allocateByWeight_largest_remainder (total : ℕ) (bp : List DomainBlueprint)
    (hne : bp ≠ []) (hw : ∀ d ∈ bp, 0 < d.weight)
    (hnd : (bp.map (·.domainNumber)).Nodup) :
    ∃ counts : String → ℤ,
      allocateByWeight total bp = AllocResult.ok counts ∧
      (∀ d ∈ bp, 0 ≤ counts d.domainNumber) ∧
      (bp.map (fun d => counts d.domainNumber)).sum = (total : ℤ) ∧
      (∀ d ∈ bp, counts d.domainNumber = allocFloor total bp d ∨
        counts d.domainNumber = allocFloor total bp d + 1) ∧
      (∀ i j, ∀ (hi : i < bp.length) (hj : j < bp.length),
        counts (bp.get ⟨i, hi⟩).domainNumber = allocFloor total bp (bp.get ⟨i, hi⟩) + 1 →
        counts (bp.get ⟨j, hj⟩).domainNumber = allocFloor total bp (bp.get ⟨j, hj⟩) →
        allocFrac total bp (bp.get ⟨j, hj⟩) < allocFrac total bp (bp.get ⟨i, hi⟩) ∨
          (allocFrac total bp (bp.get ⟨j, hj⟩) = allocFrac total bp (bp.get ⟨i, hi⟩) ∧
            i < j)) :=
  allocCountsFun_spec total bp hne hw hnd

/-- Witness for C1: the Core-1 blueprint at `T = 90` satisfies all the
largest-remainder guarantees. -/
theorem allocateByWeight_largest_remainder_witness :
    ∃ counts : String → ℤ,
      allocateByWeight 90 CORE1_BLUEPRINT = AllocResult.ok counts ∧
      (∀ d ∈ CORE1_BLUEPRINT, 0 ≤ counts d.domainNumber) ∧
      (CORE1_BLUEPRINT.map (fun d => counts d.domainNumber)).sum = (90 : ℤ) ∧
      (∀ d ∈ CORE1_BLUEPRINT, counts d.domainNumber = allocFloor 90 CORE1_BLUEPRINT d ∨
        counts d.domainNumber = allocFloor 90 CORE1_BLUEPRINT d + 1) ∧
      (∀ i j, ∀ (hi : i < CORE1_BLUEPRINT.length) (hj : j < CORE1_BLUEPRINT.length),
        counts (CORE1_BLUEPRINT.get ⟨i, hi⟩).domainNumber =
          allocFloor 90 CORE1_BLUEPRINT (CORE1_BLUEPRINT.get ⟨i, hi⟩) + 1 →
        counts (CORE1_BLUEPRINT.get ⟨j, hj⟩).domainNumber =
          allocFloor 90 CORE1_BLUEPRINT (CORE1_BLUEPRINT.get ⟨j, hj⟩) →
        allocFrac 90 CORE1_BLUEPRINT (CORE1_BLUEPRINT.get ⟨j, hj⟩) <
            allocFrac 90 CORE1_BLUEPRINT (CORE1_BLUEPRINT.get ⟨i, hi⟩) ∨
          (allocFrac 90 CORE1_BLUEPRINT (CORE1_BLUEPRINT.get ⟨j, hj⟩) =
              allocFrac 90 CORE1_BLUEPRINT (CORE1_BLUEPRINT.get ⟨i, hi⟩) ∧
            i < j)) :=
  allocateByWeight_largest_remainder 90 CORE1_BLUEPRINT (by decide) (by decide) (by decide)

/-! ### Plan-builder groundwork for C7 -/

/-- A `Math.random()` draw in `[0, 1)` picks an element of a non-empty
list. -/
theorem pickOneAt_mem (q : ℚ) (hq0 : 0 ≤ q) (hq1 : q < 1) (arr : List String)
    (hne : arr ≠ []) : pickOneAt q arr ∈ arr := by
  unfold pickOneAt randIdx
  have hlen : 0 < arr.length := List.length_pos.mpr hne
  have hfl : ⌊q * (arr.length : ℚ)⌋ < (arr.length : ℤ) := by
    apply Int.floor_lt.mpr
    push_cast
    calc q * (arr.length : ℚ) < 1 * (arr.length : ℚ) := by
          exact mul_lt_mul_of_pos_right hq1 (by exact_mod_cast hlen)
      _ = (arr.length : ℚ) := one_mul _
  have hidx : (⌊q * (arr.length : ℚ)⌋).toNat < arr.length := by omega
  rw [List.getD_eq_getElem _ _ hidx]
  exact List.getElem_mem _

/-- Invariant preservation through a left fold. -/
theorem foldl_inv {α β : Type} (Q : β → Prop) (step : β → α → β)
    (hstep : ∀ b a, Q b → Q (step b a)) :
    ∀ (l : List α) (b : β), Q b → Q (l.foldl step b) := by
  intro l
  induction l with
  | nil => intro b hb; exact hb
  | cons a t ih => intro b hb; exact ih _ (hstep b a hb)

/-- One inner-loop iteration appends exactly one plan item satisfying the
objective-reference guarantee for its domain. -/
theorem domainStep_spec (cat : Catalog) (core : CoreId) (d : DomainBlueprint)
    (r : ℕ → ℚ) (hr : ∀ n, 0 ≤ r n ∧ r n < 1) (acc : List QuestionPlanItem × ℕ) (x : ℕ) :
    (domainStep cat core d r acc x).1.length = acc.1.length + 1 ∧
    ∀ p ∈ (domainStep cat core d r acc x).1, p ∈ acc.1 ∨ planObjOk cat core p := by
  unfold domainStep
  dsimp only
  constructor
  · simp
  · intro p hp
    rcases List.mem_append.mp hp with h | h
    · exact Or.inl h
    · right
      rw [List.mem_singleton] at h
      subst h
      unfold planObjOk
      dsimp only
      by_cases hids : listObjectivesByDomain cat core d.domainNumber = []
      · rw [if_neg (by simpa using hids)]
        exact ⟨fun hcon => absurd hids hcon, fun _ => rfl⟩
      · rw [if_pos (by simpa using hids)]
        exact ⟨fun _ => pickOneAt_mem _ (hr acc.2).1 (hr acc.2).2 _ hids,
          fun hcon => absurd hcon hids⟩

/-- The inner loop for one domain appends `count` items, all satisfying
the objective-reference guarantee. -/
theorem rangeFold_domainStep_spec (cat : Catalog) (core : CoreId) (d : DomainBlueprint)
    (r : ℕ → ℚ) (hr : ∀ n, 0 ≤ r n ∧ r n < 1) (count : ℕ) :
    ∀ acc : List QuestionPlanItem × ℕ,
      (((List.range count).foldl (domainStep cat core d r) acc).1.length =
        acc.1.length + count) ∧
      ∀ p ∈ ((List.range count).foldl (domainStep cat core d r) acc).1,
        p ∈ acc.1 ∨ planObjOk cat core p := by
  induction count with
  | zero => intro acc; exact ⟨by simp, fun p hp => Or.inl hp⟩
  | succ n ih =>
      intro acc
      rw [List.range_succ, List.foldl_append, List.foldl_cons, List.foldl_nil]
      obtain ⟨ihlen, ihmem⟩ := ih acc
      obtain ⟨slen, smem⟩ := domainStep_spec cat core d r hr
        ((List.range n).foldl (domainStep cat core d r) acc) n
      constructor
      · rw [slen, ihlen]
        omega
      · intro p hp
        rcases smem p hp with h | h
        · exact ihmem p h
        · exact Or.inr h

/-- The whole per-domain expansion: the plan has one item per allocated
count, and all items satisfy the objective-reference guarantee. -/
theorem buildPlanBase_spec (cat : Catalog) (core : CoreId) (bp : List DomainBlueprint)
    (allocation : String → ℤ) (r : ℕ → ℚ) (hr : ∀ n, 0 ≤ r n ∧ r n < 1) :
    (buildPlanBase cat core bp allocation r).1.length =
      (bp.map (fun d => (allocation d.domainNumber).toNat)).sum ∧
    ∀ p ∈ (buildPlanBase cat core bp allocation r).1, planObjOk cat core p := by
  have main : ∀ (l : List DomainBlueprint) (acc : List QuestionPlanItem × ℕ),
      ((l.foldl (fun acc d =>
          (List.range (allocation d.domainNumber).toNat).foldl
            (domainStep cat core d r) acc) acc).1.length =
        acc.1.length + (l.map (fun d => (allocation d.domainNumber).toNat)).sum) ∧
      ∀ p ∈ (l.foldl (fun acc d =>
          (List.range (allocation d.domainNumber).toNat).foldl
            (domainStep cat core d r) acc) acc).1,
        p ∈ acc.1 ∨ planObjOk cat core p := by
    intro l
    induction l with
    | nil => intro acc; exact ⟨by simp, fun p hp => Or.inl hp⟩
    | cons d t ih =>
        intro acc
        rw [List.foldl_cons]
        obtain ⟨rlen, rmem⟩ := rangeFold_domainStep_spec cat core d r hr
          (allocation d.domainNumber).toNat acc
        obtain ⟨tlen, tmem⟩ := ih
          ((List.range (allocation d.domainNumber).toNat).foldl (domainStep cat core d r) acc)
        constructor
        · rw [tlen, rlen, List.map_cons, List.sum_cons]
          omega
        · intro p hp
          rcases tmem p hp with h | h
          · rcases rmem p h with h2 | h2
            · exact Or.inl h2
            · exact Or.inr h2
          · exact Or.inr h
  obtain ⟨hlen, hmem⟩ := main bp ([], 0)
  refine ⟨by simpa using hlen, fun p hp => ?_⟩
  rcases hmem p hp with h | h
  · cases h
  · exact h

/-- The PBQ injection step preserves length and the objective-reference
guarantee (it only rewrites the `type` field of one slot). -/
theorem injectPbqStep_preserves (cat : Catalog) (core : CoreId) (r : ℕ → ℚ) (n : ℕ)
    (acc : List QuestionPlanItem × ℕ) (x : ℕ)
    (h : acc.1.length = n ∧ ∀ p ∈ acc.1, planObjOk cat core p) :
    (injectPbqStep r acc x).1.length = n ∧
      ∀ p ∈ (injectPbqStep r acc x).1, planObjOk cat core p := by
  unfold injectPbqStep
  dsimp only
  cases hget : acc.1.get? (randIdx (r acc.2) acc.1.length) with
  | none =>
      exact h
  | some it =>
      dsimp only
      refine ⟨by rw [List.length_set]; exact h.1, fun p hp => ?_⟩
      rcases List.mem_or_eq_of_mem_set hp with hmem | rfl
      · exact h.2 p hmem
      · exact h.2 it (List.get?_mem hget)

/-- The multi-select sprinkle step preserves length and the
objective-reference guarantee. -/
theorem injectMultiStep_preserves (cat : Catalog) (core : CoreId) (r : ℕ → ℚ) (n : ℕ)
    (acc : List QuestionPlanItem × ℕ) (x : ℕ)
    (h : acc.1.length = n ∧ ∀ p ∈ acc.1, planObjOk cat core p) :
    (injectMultiStep r acc x).1.length = n ∧
      ∀ p ∈ (injectMultiStep r acc x).1, planObjOk cat core p := by
  unfold injectMultiStep
  dsimp only
  cases hget : acc.1.get? (randIdx (r acc.2) acc.1.length) with
  | none =>
      exact h
  | some it =>
      dsimp only
      by_cases hty : it.type = QuestionType.single
      · rw [if_pos hty]
        refine ⟨by rw [List.length_set]; exact h.1, fun p hp => ?_⟩
        rcases List.mem_or_eq_of_mem_set hp with hmem | rfl
        · exact h.2 p hmem
        · exact h.2 it (List.get?_mem hget)
      · rw [if_neg hty]
        exact h

/-- Non-negative integers: mapping `toNat` commutes with the sum. -/
theorem list_sum_toNat (l : List ℤ) (h : ∀ x ∈ l, 0 ≤ x) :
    (l.map Int.toNat).sum = l.sum.toNat := by
  induction l with
  | nil => simp
  | cons a t ih =>
      have ha := h a (List.mem_cons_self a t)
      have hts : 0 ≤ t.sum := List.sum_nonneg (fun x hx => h x (List.mem_cons_of_mem a hx))
      rw [List.map_cons, List.sum_cons, List.sum_cons, ih (fun x hx => h x (List.mem_cons_of_mem a hx))]
      omega

/-- The allocation of `EXAM_QUESTION_COUNT` over a well-formed blueprint
sums to `EXAM_QUESTION_COUNT` after the `?? 0`/loop-bound `toNat` read. -/
theorem alloc_counts_toNat_sum (bp : List DomainBlueprint) (hne : bp ≠ [])
    (hw : ∀ d ∈ bp, 0 < d.weight) (hnd : (bp.map (·.domainNumber)).Nodup) :
    (bp.map (fun d =>
      ((allocateByWeight EXAM_QUESTION_COUNT bp).counts d.domainNumber).toNat)).sum =
      EXAM_QUESTION_COUNT := by
  obtain ⟨counts, hok, hnn, hsum, -, -⟩ :=
    allocCountsFun_spec EXAM_QUESTION_COUNT bp hne hw hnd
  rw [hok]
  have hc : ∀ d : DomainBlueprint, (AllocResult.ok counts).counts d.domainNumber =
      counts d.domainNumber := fun _ => rfl
  calc (bp.map (fun d => ((AllocResult.ok counts).counts d.domainNumber).toNat)).sum
      = ((bp.map (fun d => counts d.domainNumber)).map Int.toNat).sum := by
        rw [List.map_map]
        rfl
    _ = ((bp.map (fun d => counts d.domainNumber)).sum).toNat := by
        apply list_sum_toNat
        intro x hx
        rcases List.mem_map.mp hx with ⟨d, hd, rfl⟩
        exact hnn d hd
    _ = EXAM_QUESTION_COUNT := by rw [hsum]; rfl

/-- C7: for every core, configuration, objective catalogue and
`Math.random()` stream with values in `[0, 1)`, `buildPlan` returns a plan
with exactly `EXAM_QUESTION_COUNT` (= 90) entries, each carrying its
domain and an objective id drawn from that domain's objective list — or
the placeholder `"<domainMajor>.1"` when the domain has no objectives —
and an answer type. -/
theorem buildPlan_ninety_entries (cat : Catalog) (core : CoreId) (config : SessionConfig)
    (r : ℕ → ℚ) (hr : ∀ n, 0 ≤ r n ∧ r n < 1) :
    (buildPlan cat core config r).length = EXAM_QUESTION_COUNT ∧
    ∀ p ∈ buildPlan cat core config r, planObjOk cat core p := by
  have main : ∀ bp : List DomainBlueprint, bp ≠ [] → (∀ d ∈ bp, 0 < d.weight) →
      (bp.map (·.domainNumber)).Nodup →
      ∀ pbqCount multiCount : ℕ,
      (((List.range multiCount).foldl (injectMultiStep r)
        ((List.range pbqCount).foldl (injectPbqStep r)
          (buildPlanBase cat core bp
            ((allocateByWeight EXAM_QUESTION_COUNT bp).counts) r))).1.take
              EXAM_QUESTION_COUNT).length = EXAM_QUESTION_COUNT ∧
      ∀ p ∈ (((List.range multiCount).foldl (injectMultiStep r)
        ((List.range pbqCount).foldl (injectPbqStep r)
          (buildPlanBase cat core bp
            ((allocateByWeight EXAM_QUESTION_COUNT bp).counts) r))).1.take
              EXAM_QUESTION_COUNT), planObjOk cat core p := by
    intro bp hne hw hnd pbqCount multiCount
    obtain ⟨hblen, hbmem⟩ := buildPlanBase_spec cat core bp
      ((allocateByWeight EXAM_QUESTION_COUNT bp).counts) r hr
    have hbase : (buildPlanBase cat core bp
        ((allocateByWeight EXAM_QUESTION_COUNT bp).counts) r).1.length =
          EXAM_QUESTION_COUNT ∧
        ∀ p ∈ (buildPlanBase cat core bp
          ((allocateByWeight EXAM_QUESTION_COUNT bp).counts) r).1, planObjOk cat core p := by
      rw [hblen, alloc_counts_toNat_sum bp hne hw hnd]
      exact ⟨rfl, hbmem⟩
    have hpbq := foldl_inv
      (fun acc : List QuestionPlanItem × ℕ =>
        acc.1.length = EXAM_QUESTION_COUNT ∧ ∀ p ∈ acc.1, planObjOk cat core p)
      (injectPbqStep r)
      (fun b a hb => injectPbqStep_preserves cat core r EXAM_QUESTION_COUNT b a hb)
      (List.range pbqCount) _ hbase
    have hmulti := foldl_inv
      (fun acc : List QuestionPlanItem × ℕ =>
        acc.1.length = EXAM_QUESTION_COUNT ∧ ∀ p ∈ acc.1, planObjOk cat core p)
      (injectMultiStep r)
      (fun b a hb => injectMultiStep_preserves cat core r EXAM_QUESTION_COUNT b a hb)
      (List.range multiCount) _ hpbq
    constructor
    · rw [List.length_take, hmulti.1]
      omega
    · intro p hp
      exact hmulti.2 p (List.mem_of_mem_take hp)
  cases core
  · exact main CORE1_BLUEPRINT (by decide) (by decide) (by decide) _ _
  · exact main CORE2_BLUEPRINT (by decide) (by decide) (by decide) _ _

/-- Witness for C7 at a concrete catalogue, configuration and stream. -/
theorem buildPlan_ninety_entries_witness :
    (buildPlan (fun _ => []) CoreId.core1201
        { pbqCount := 5, showObjectiveHints := false, difficulty := Difficulty.medium }
        (fun _ => 0)).length = EXAM_QUESTION_COUNT ∧
    ∀ p ∈ buildPlan (fun _ => []) CoreId.core1201
        { pbqCount := 5, showObjectiveHints := false, difficulty := Difficulty.medium }
        (fun _ => 0), planObjOk (fun _ => []) CoreId.core1201 p :=
  buildPlan_ninety_entries (fun _ => []) CoreId.core1201
    { pbqCount := 5, showObjectiveHints := false, difficulty := Difficulty.medium }
    (fun _ => 0) (fun _ => ⟨le_refl 0, by norm_num⟩)

end ASim
